import Mathlib

/-!
Verification of `scripts/analyze.py` (YMCA WS distribution metrics collector).

The Python source is shallowly embedded: pure helpers become Lean functions on
`String` / `List Char`; every interaction with an external process (`git`, `tar`,
the PHP analyzer, the filesystem) is modelled by explicit oracle parameters, and
the surrounding control flow is translated faithfully from the source.
-/

/-- Whitespace characters recognised by Python's `str.strip` and the regex
class `\s` (ASCII range, which is all that the analysed inputs contain). -/
def pyIsSpace (c : Char) : Bool :=
  c = (' ') || c = ('\t') || c = ('\n') || c = ('\r') || c = (Char.ofNat 11) || c = (Char.ofNat 12)

/-- Python `str.strip` on a character list: drop leading and trailing whitespace. -/
def pyStrip (cs : List Char) : List Char :=
  ((cs.dropWhile pyIsSpace).reverse.dropWhile pyIsSpace).reverse

/-- Python `str.lower` on one character (ASCII case fold, which is what the
commit subjects exercised here contain). -/
def pyLowerChar (c : Char) : Char :=
  if ('A') ≤ c ∧ c ≤ ('Z') then Char.ofNat (c.toNat + 32) else c

/-- Matcher for the tail of the conventional-commit prefix regexes of
`classify_commit`: the fragment `!?:` (an optional bang followed by a colon). -/
def bangColon : List Char → Bool
  | ('!') :: (':') :: _ => true
  | (':') :: _ => true
  | _ => false

/-- Matcher for the regex fragment `(\([^)]+\))?!?:` of `classify_commit`,
applied right after a recognised type token.  The optional scope group is
`\(` , one or more non-`)` characters, `\)`; when the group is present but the
rest fails, regex backtracking retries without the group, which necessarily
fails on the leading parenthesis, so the translation is deterministic. -/
def scopeBangColon : List Char → Bool
  | ('(') :: rest =>
      let inner := rest.takeWhile (fun c => ¬ (c = (')')))
      let after := rest.dropWhile (fun c => ¬ (c = (')')))
      match after with
      | (')') :: r2 => (¬ inner.isEmpty) && bangColon r2
      | _ => false
  | cs => bangColon cs

/-- Matcher for `re.match` with pattern `^(t1|t2|...)(\([^)]+\))?!?:` —
ordered alternation with backtracking over the listed type tokens.  Whether the
whole pattern matches is order-independent, so `List.any` is a faithful
translation. -/
def typeColonMatch (types : List (List Char)) (cs : List Char) : Bool :=
  types.any (fun t => t.isPrefixOf cs && scopeBangColon (cs.drop t.length))

/-- Type tokens of `bug_pattern` in `classify_commit`. -/
def bugTypes : List (List Char) :=
  [[('f'),('i'),('x')], [('b'),('u'),('g'),('f'),('i'),('x')], [('b'),('u'),('g')],
   [('h'),('o'),('t'),('f'),('i'),('x')]]

/-- Type tokens of `feature_pattern` in `classify_commit`. -/
def featureTypes : List (List Char) :=
  [[('f'),('e'),('a'),('t')], [('f'),('e'),('a'),('t'),('u'),('r'),('e')]]

/-- Type tokens of `maintenance_pattern` in `classify_commit`. -/
def maintenanceTypes : List (List Char) :=
  [("build").data, ("chore").data, ("ci").data, ("docs").data, ("style").data,
   ("refactor").data, ("perf").data, ("test").data, ("task").data, ("revert").data]

/-- Matcher for `re.match` with pattern `^issue\s*#?\d+` of `classify_commit`:
the literal `issue`, any amount of whitespace, an optional `#`, at least one
digit.  Backtracking over `\s*` and `#?` cannot change the outcome (whitespace
is neither `#` nor a digit, and `#` is not a digit), so the greedy translation
is deterministic. -/
def issueRefMatch (cs : List Char) : Bool :=
  if ("issue").data.isPrefixOf cs then
    let rest := (cs.drop 5).dropWhile pyIsSpace
    match rest with
    | ('#') :: d :: _ => d.isDigit
    | d :: _ => d.isDigit
    | [] => false
  else false

/-- Translation of `classify_commit` (analyze.py lines 166-198): normalise the
subject with `strip().lower()`, then test the bug / feature / maintenance
conventional-commit prefixes, the Drupal issue-reference pattern and the
merge-commit prefix in order. -/
def classify_commit (s : String) : String :=
  let subject := (pyStrip s.data).map pyLowerChar
  if typeColonMatch bugTypes subject then ("Bug")
  else if typeColonMatch featureTypes subject then ("Feature")
  else if typeColonMatch maintenanceTypes subject then ("Maintenance")
  else if issueRefMatch subject then ("Maintenance")
  else if ("merge").data.isPrefixOf subject then ("Maintenance")
  else ("Unknown")

/-- Spec-side formalisation of the issue-reference pattern exactly as the
claim words it: the literal text `issue #` followed by at least one digit. -/
def specIssueRef (cs : List Char) : Bool :=
  if ("issue #").data.isPrefixOf cs then
    match cs.drop 7 with
    | d :: _ => d.isDigit
    | [] => false
  else false

/-- C1: `classify_commit` is a total function into the four category strings,
and the five sample subjects of the spec classify as stated (case-insensitively,
via the `strip().lower()` normalisation). -/
theorem classify_commit_total_and_samples (s : String) :
    (classify_commit s = ("Bug") ∨ classify_commit s = ("Feature") ∨
     classify_commit s = ("Maintenance") ∨ classify_commit s = ("Unknown")) ∧
    classify_commit ("fix: x") = ("Bug") ∧
    classify_commit ("feat(api)!: y") = ("Feature") ∧
    classify_commit ("docs: update readme") = ("Maintenance") ∧
    classify_commit ("Issue #123 something") = ("Maintenance") ∧
    classify_commit ("random text") = ("Unknown") ∧
    classify_commit ("FIX: x") = ("Bug") ∧
    classify_commit ("Feat(API)!: y") = ("Feature") := by
  refine ⟨?_, by decide, by decide, by decide, by decide, by decide, by decide, by decide⟩
  unfold classify_commit
  by_cases h1 : typeColonMatch bugTypes ((pyStrip s.data).map pyLowerChar) <;>
    by_cases h2 : typeColonMatch featureTypes ((pyStrip s.data).map pyLowerChar) <;>
      by_cases h3 : typeColonMatch maintenanceTypes ((pyStrip s.data).map pyLowerChar) <;>
        by_cases h4 : issueRefMatch ((pyStrip s.data).map pyLowerChar) <;>
          by_cases h5 : ("merge").data.isPrefixOf ((pyStrip s.data).map pyLowerChar) <;>
            simp [h1, h2, h3, h4, h5]

/-- C2 counterexample: the subject `issue42` starts with no recognised type
token, does not match the claim's issue pattern `issue #<digits>`, and does not
begin with `merge`, yet `classify_commit` returns `Maintenance`, not `Unknown`
(the source regex `^issue\s*#?\d+` makes both the whitespace and the `#`
optional). -/
theorem classify_commit_issue_pattern_counterexample :
    typeColonMatch bugTypes ((pyStrip ("issue42").data).map pyLowerChar) = false ∧
    typeColonMatch featureTypes ((pyStrip ("issue42").data).map pyLowerChar) = false ∧
    typeColonMatch maintenanceTypes ((pyStrip ("issue42").data).map pyLowerChar) = false ∧
    specIssueRef ((pyStrip ("issue42").data).map pyLowerChar) = false ∧
    ("merge").data.isPrefixOf ((pyStrip ("issue42").data).map pyLowerChar) = false ∧
    classify_commit ("issue42") = ("Maintenance") := by
  decide

/-- C2 as amended: a normalised subject that matches none of the recognised
type-token prefixes, does not match the source's issue-reference pattern
`issue` + optional whitespace + optional `#` + digits, and does not begin with
`merge`, classifies as `Unknown`. -/
theorem classify_commit_unknown_of_no_match (s : String)
    (h1 : typeColonMatch bugTypes ((pyStrip s.data).map pyLowerChar) = false)
    (h2 : typeColonMatch featureTypes ((pyStrip s.data).map pyLowerChar) = false)
    (h3 : typeColonMatch maintenanceTypes ((pyStrip s.data).map pyLowerChar) = false)
    (h4 : issueRefMatch ((pyStrip s.data).map pyLowerChar) = false)
    (h5 : ("merge").data.isPrefixOf ((pyStrip s.data).map pyLowerChar) = false) :
    classify_commit s = ("Unknown") := by
  unfold classify_commit
  simp [h1, h2, h3, h4, h5]

/-- Witness for the amended C2 theorem at the concrete subject `random text`. -/
theorem classify_commit_unknown_of_no_match_witness :
    classify_commit ("random text") = ("Unknown") :=
  classify_commit_unknown_of_no_match ("random text")
    (by decide) (by decide) (by decide) (by decide) (by decide)

/-- Lexicographic comparison of two `(year, month, day)` triples, the order
Python uses to evaluate `target <= today` on `datetime` values (the loop's
target always carries day `1` and a zero time-of-day, so the comparison of the
full `datetime` values reduces to this triple comparison). -/
def pyDateLe (a b : Nat × Nat × Nat) : Bool :=
  if a.1 < b.1 then true
  else if a.1 = b.1 then
    if a.2.1 < b.2.1 then true
    else if a.2.1 = b.2.1 then a.2.2 ≤ b.2.2
    else false
  else false

/-- Translation of the semi-annual stepping in `main` (analyze.py lines
511-515): add six months, rolling the year over when the month exceeds 12. -/
def stepMonth (t : Nat × Nat) : Nat × Nat :=
  if t.2 + 6 > 12 then (t.1 + 1, t.2 + 6 - 12) else (t.1, t.2 + 6)

/-- Linear month index of a `(year, month)` checkpoint. -/
def monthIdx (t : Nat × Nat) : Nat :=
  12 * t.1 + t.2

/-- Iteration of the `while target <= today` loop of `main` (analyze.py lines
509-515).  The `fuel` argument is only an upper bound on the number of
iterations that makes the recursion structural; the loop is always ended by the
guard, never by exhausted fuel (see `snapshotLoop_fuel_enough`). -/
def snapshotLoop (today : Nat × Nat × Nat) : Nat → (Nat × Nat) → List (Nat × Nat)
  | 0, _ => []
  | fuel + 1, t =>
      if pyDateLe (t.1, t.2, 1) today then t :: snapshotLoop today fuel (stepMonth t) else []

/-- Translation of the snapshot-date enumeration in `main` (analyze.py lines
506-515): start at the fixed epoch `datetime(2015, 10, 1)` (already day 1, so
`replace(day=1)` is the identity) and step by six months while the target is at
or before today.  The fuel `2 * year(today) + 6` strictly dominates the number
of iterations: the year of the target grows at least every second step and the
guard fails as soon as the target's year passes today's. -/
def snapshot_dates (today : Nat × Nat × Nat) : List (Nat × Nat) :=
  snapshotLoop today (2 * today.1 + 6) (2015, 10)

theorem monthIdx_stepMonth (t : Nat × Nat) : monthIdx (stepMonth t) = monthIdx t + 6 := by
  unfold stepMonth monthIdx
  by_cases h : t.2 + 6 > 12 <;> simp [h] <;> omega

theorem snapshotLoop_head {today : Nat × Nat × Nat} {fuel : Nat} {t x : Nat × Nat}
    (h : (snapshotLoop today fuel t).head? = some x) : x = t := by
  cases fuel with
  | zero => simp [snapshotLoop] at h
  | succ n =>
      unfold snapshotLoop at h
      by_cases hg : pyDateLe (t.1, t.2, 1) today = true
      · simp [hg] at h; exact h.symm
      · simp [hg] at h

theorem snapshotLoop_chain (today : Nat × Nat × Nat) (fuel : Nat) (t : Nat × Nat) :
    List.Chain' (fun a b => b = stepMonth a) (snapshotLoop today fuel t) := by
  induction fuel generalizing t with
  | zero => simp [snapshotLoop]
  | succ n ih =>
      unfold snapshotLoop
      by_cases hg : pyDateLe (t.1, t.2, 1) today = true
      · simp only [hg, if_true]
        refine List.chain'_cons'.mpr ⟨?_, ih (stepMonth t)⟩
        intro y hy
        exact snapshotLoop_head hy
      · simp [hg]

theorem snapshotLoop_guard (today : Nat × Nat × Nat) (fuel : Nat) (t : Nat × Nat) :
    List.Forall (fun p => pyDateLe (p.1, p.2, 1) today = true) (snapshotLoop today fuel t) := by
  induction fuel generalizing t with
  | zero => simp [snapshotLoop]
  | succ n ih =>
      unfold snapshotLoop
      by_cases hg : pyDateLe (t.1, t.2, 1) today = true
      · rw [if_pos hg, List.forall_cons]
        exact ⟨hg, ih (stepMonth t)⟩
      · simp [hg]

theorem snapshotLoop_month_bounds (today : Nat × Nat × Nat) (fuel : Nat) (t : Nat × Nat)
    (h1 : 1 ≤ t.2) (h2 : t.2 ≤ 12) :
    List.Forall (fun p => 1 ≤ p.2 ∧ p.2 ≤ 12) (snapshotLoop today fuel t) := by
  induction fuel generalizing t with
  | zero => simp [snapshotLoop]
  | succ n ih =>
      unfold snapshotLoop
      by_cases hg : pyDateLe (t.1, t.2, 1) today = true
      · simp only [hg, if_true, List.forall_cons]
        refine ⟨⟨h1, h2⟩, ih (stepMonth t) ?_ ?_⟩ <;> unfold stepMonth <;>
          by_cases hc : t.2 + 6 > 12 <;> simp [hc] <;> omega
      · simp [hg]

theorem snapshotLoop_pairwise (today : Nat × Nat × Nat) (fuel : Nat) (t : Nat × Nat) :
    List.Pairwise (fun a b => monthIdx a < monthIdx b) (snapshotLoop today fuel t) := by
  have hchain : List.Chain' (fun a b => monthIdx a < monthIdx b) (snapshotLoop today fuel t) := by
    refine List.Chain'.imp ?_ (snapshotLoop_chain today fuel t)
    intro a b hab
    rw [hab, monthIdx_stepMonth]
    omega
  haveI : IsTrans (Nat × Nat) (fun a b => monthIdx a < monthIdx b) :=
    ⟨fun _ _ _ h1 h2 => lt_trans h1 h2⟩
  exact List.chain'_iff_pairwise.mp hchain

/-- C3: the checkpoint enumeration of `main` starts at the fixed epoch
(October 2015, day 1), every produced checkpoint satisfies the loop guard
(checkpoint at or before today), consecutive checkpoints are one `stepMonth`
apart — hence exactly 6 months apart and strictly increasing — and the month
arithmetic rolls the year over correctly: for any month `7 + k > 6`, adding six
months increments the year and yields month `k + 1` (in particular month 8
becomes month 2 of the next year). -/
theorem snapshot_dates_spec (today : Nat × Nat × Nat) :
    (snapshot_dates today).head? =
      (if pyDateLe (2015, 10, 1) today = true then some ((2015 : Nat), (10 : Nat)) else none) ∧
    List.Forall (fun p => pyDateLe (p.1, p.2, 1) today = true) (snapshot_dates today) ∧
    List.Chain' (fun a b => b = stepMonth a) (snapshot_dates today) ∧
    List.Chain' (fun a b => monthIdx b = monthIdx a + 6) (snapshot_dates today) ∧
    List.Pairwise (fun a b => monthIdx a < monthIdx b) (snapshot_dates today) ∧
    (∀ y k : Nat, stepMonth (y, 7 + k) = (y + 1, k + 1)) ∧
    (∀ y : Nat, stepMonth (y, 8) = (y + 1, 2)) := by
  refine ⟨?_, snapshotLoop_guard today _ _, snapshotLoop_chain today _ _, ?_, ?_, ?_, ?_⟩
  · have hfuel : 2 * today.1 + 6 = (2 * today.1 + 5) + 1 := by omega
    unfold snapshot_dates
    rw [hfuel]
    unfold snapshotLoop
    by_cases hg : pyDateLe (2015, 10, 1) today = true
    · simp [hg]
    · simp [hg]
  · refine List.Chain'.imp ?_ (snapshotLoop_chain today _ _)
    intro a b hab
    rw [hab, monthIdx_stepMonth]
  · exact snapshotLoop_pairwise today _ _
  · intro y k
    unfold stepMonth
    rw [if_pos (by omega)]
    simp
    omega
  · intro y
    rfl

/-- Python `'sub' in line` substring test on character lists. -/
def containsSub (needle : List Char) : List Char → Bool
  | [] => needle.isEmpty
  | c :: rest => needle.isPrefixOf (c :: rest) || containsSub needle rest

/-- Python `str.split(sep)` (unbounded) on character lists; like Python it
returns one (possibly empty) field more than the number of separators. -/
def pySplitChar (sep : Char) : List Char → List (List Char)
  | [] => [[]]
  | c :: rest =>
      match pySplitChar sep rest with
      | [] => [[]]
      | g :: gs => if c = sep then [] :: g :: gs else (c :: g) :: gs

/-- Python `str.split(sep, maxsplit)` on character lists. -/
def pySplitAtMost (sep : Char) : Nat → List Char → List (List Char)
  | _, [] => [[]]
  | 0, cs => [cs]
  | k + 1, c :: rest =>
      if c = sep then [] :: pySplitAtMost sep k rest
      else
        match pySplitAtMost sep (k + 1) rest with
        | [] => [[]]
        | g :: gs => (c :: g) :: gs

/-- Numeric value of a decimal digit string (the effect of Python's `int` on
the all-digit strings produced by the regex groups and `git log` formats). -/
def natOfDigits (cs : List Char) : Nat :=
  cs.foldl (fun a c => a * 10 + (c.toNat - 48)) 0

/-- Translation of `re.search(r'(\d+) <word>', line)` as used for the
`insertion` / `deletion` counts: find the leftmost position carrying a digit
run directly followed by the suffix, returning the run's numeric value.
Greedy backtracking inside `\d+` cannot produce a different outcome because
the character after a shortened run is still a digit, never the space the
suffix starts with. -/
def searchNumBefore (suffix : List Char) : List Char → Option Nat
  | [] => none
  | c :: rest =>
      let ds := (c :: rest).takeWhile Char.isDigit
      if (¬ ds.isEmpty) ∧ suffix.isPrefixOf ((c :: rest).drop ds.length) then
        some (natOfDigits ds)
      else searchNumBefore suffix rest

/-- Month abbreviations used by `strftime("%b")` in the C locale. -/
def monthAbbr (m : Nat) : String :=
  (([("Jan"), ("Feb"), ("Mar"), ("Apr"), ("May"), ("Jun"), ("Jul"), ("Aug"),
     ("Sep"), ("Oct"), ("Nov"), ("Dec")] : List String).getD (m - 1) (""))

/-- Leap-year rule of the proleptic Gregorian calendar used by `datetime`. -/
def isLeapYear (y : Nat) : Bool :=
  y % 4 = 0 && (¬ y % 100 = 0 || y % 400 = 0)

/-- Number of days of a month as validated by `datetime.strptime`. -/
def daysInMonth (y m : Nat) : Nat :=
  if m = 2 then (if isLeapYear y then 29 else 28)
  else if m = 4 ∨ m = 6 ∨ m = 9 ∨ m = 11 then 30
  else 31

/-- Translation of `datetime.strptime(s, "%Y-%m-%d")`: one to four year
digits, one or two month and day digits separated by `-`, nothing left over,
and the triple must be a valid calendar date. -/
def pyStrptimeYmd (s : String) : Option (Nat × Nat × Nat) :=
  match pySplitChar ('-') s.data with
  | [ys, ms, ds] =>
      if (¬ ys.isEmpty) ∧ ys.length ≤ 4 ∧ ys.all Char.isDigit ∧
         (¬ ms.isEmpty) ∧ ms.length ≤ 2 ∧ ms.all Char.isDigit ∧
         (¬ ds.isEmpty) ∧ ds.length ≤ 2 ∧ ds.all Char.isDigit then
        let y := natOfDigits ys
        let m := natOfDigits ms
        let d := natOfDigits ds
        if 1 ≤ y ∧ y ≤ 9999 ∧ 1 ≤ m ∧ m ≤ 12 ∧ 1 ≤ d ∧ d ≤ daysInMonth y m then
          some (y, m, d)
        else none
      else none
  | _ => none

/-- ASCII digit character for a value below ten. -/
def digitChar (d : Nat) : Char :=
  Char.ofNat (48 + d)

/-- Two-digit zero-padded decimal rendering (`strftime` `%d` / `%m`). -/
def pad2 (n : Nat) : String :=
  if n < 100 then String.mk [digitChar (n / 10), digitChar (n % 10)] else toString n

/-- Translation of `dt.strftime("%b %d, %Y")` for the feed's display date. -/
def humanDate (y m d : Nat) : String :=
  monthAbbr m ++ (" ") ++ pad2 d ++ (", ") ++ toString y

/-- Translation of the date re-formatting in `get_recent_commits` (lines
301-305): re-parse the `%cs` date and render it human-readable, falling back
to the raw text on a parse error. -/
def formatSortDate (sd : String) : String :=
  match pyStrptimeYmd sd with
  | some (y, m, d) => humanDate y m d
  | none => sd

/-- Values stored in the commit-record dictionaries of `get_recent_commits`. -/
inductive PyVal where
  | str (s : String)
  | num (n : Nat)
deriving DecidableEq

/-- Commit records are modelled as insertion-ordered key/value lists, so that
the `del c['sort_date']` of the source is an observable operation. -/
def lookupKey (k : String) : List (String × PyVal) → Option PyVal
  | [] => none
  | kv :: rest => if kv.1 = k then some kv.2 else lookupKey k rest

/-- Python `del d[k]` on a dictionary whose keys are unique. -/
def eraseKey (k : String) (d : List (String × PyVal)) : List (String × PyVal) :=
  d.filter (fun kv => ¬ (kv.1 = k))

/-- Parser state of the line loop in `get_recent_commits` (lines 280-282). -/
structure PState where
  currentHash : Option String
  currentMsg : Option String
  currentDate : Option String
deriving DecidableEq

/-- Python truthiness of the `current_hash` variable (`None` and the empty
string are falsy). -/
def pyTruthyOpt : Option String → Bool
  | some s => ¬ s.isEmpty
  | none => false

/-- Translation of one iteration of the line loop of `get_recent_commits`
(lines 284-315): a `COMMIT:` header updates the pending state, a line
containing `changed` (with a pending hash) emits one record and clears the
hash, anything else is ignored. -/
def processLine (repoName : String) (st : PState) (rawLine : String) :
    PState × Option (List (String × PyVal)) :=
  let line := pyStrip rawLine.data
  if ("COMMIT:").data.isPrefixOf line then
    let parts := pySplitAtMost (':') 3 line
    if 4 ≤ parts.length then
      ({ currentHash := some (String.mk (parts.getD 1 [])),
         currentMsg := some (String.mk ((parts.getD 3 []).take 80)),
         currentDate := some (String.mk (parts.getD 2 [])) }, none)
    else (st, none)
  else if containsSub ("changed").data line && pyTruthyOpt st.currentHash then
    let insertions := (searchNumBefore ((" insertion").data) line).getD 0
    let deletions := (searchNumBefore ((" deletion").data) line).getD 0
    let total := insertions + deletions
    let msg := st.currentMsg.getD ("")
    let sd := st.currentDate.getD ("")
    ({ st with currentHash := none },
      some [(("hash"), PyVal.str (st.currentHash.getD (""))),
            (("message"), PyVal.str msg),
            (("date"), PyVal.str (formatSortDate sd)),
            (("sort_date"), PyVal.str sd),
            (("lines"), PyVal.num total),
            (("type"), PyVal.str (classify_commit msg)),
            (("repo"), PyVal.str repoName)])
  else (st, none)

/-- Records produced from one repository's `git log` output by the line loop
of `get_recent_commits`. -/
def parseRepoLog (repoName : String) (stdout : String) : List (List (String × PyVal)) :=
  ((pySplitChar ('\n') stdout.data).foldl
    (fun (p : PState × List (List (String × PyVal))) lineChars =>
      match processLine repoName p.1 (String.mk lineChars) with
      | (st, some r) => (st, p.2 ++ [r])
      | (st, none) => (st, p.2))
    (⟨none, none, none⟩, [])).2

/-- One repository's `git log --shortstat` invocation: directory name, exit
code and captured standard output. -/
structure RepoLog where
  name : String
  exitCode : Nat
  stdout : String
deriving DecidableEq

/-- Accumulated records of `get_recent_commits` before sorting (lines
269-316); a repository whose git invocation failed contributes nothing. -/
def rawRecentCommits (logs : List RepoLog) : List (List (String × PyVal)) :=
  logs.foldl (fun acc rl => if ¬ (rl.exitCode = 0) then acc
                            else acc ++ parseRepoLog rl.name rl.stdout) []

/-- Sort key of `sorted(commits, key=lambda x: x['sort_date'], reverse=True)`. -/
def sortKeyOf (d : List (String × PyVal)) : String :=
  match lookupKey ("sort_date") d with
  | some (PyVal.str s) => s
  | _ => ("")

/-- Ordering relation realising Python's stable descending sort by
`sort_date`: `a` may precede `b` exactly when `b`'s key is at most `a`'s. -/
def recentRel (a b : List (String × PyVal)) : Prop :=
  sortKeyOf b ≤ sortKeyOf a

instance : DecidableRel recentRel :=
  fun a b => inferInstanceAs (Decidable (sortKeyOf b ≤ sortKeyOf a))

/-- Result of the `sorted(...)` call of `get_recent_commits` (line 317).
Python's sort and insertion sort are both stable sorts of the same total
preorder, hence the same function. -/
def sortedRecentCommits (logs : List RepoLog) : List (List (String × PyVal)) :=
  List.insertionSort recentRel (rawRecentCommits logs)

/-- Translation of `get_recent_commits` (lines 267-320): sort all records
newest-first, delete the internal `sort_date` key from every record, and keep
the first 200. -/
def get_recent_commits (logs : List RepoLog) : List (List (String × PyVal)) :=
  (((sortedRecentCommits logs).map (eraseKey ("sort_date"))).take 200)

theorem lookupKey_eraseKey (k : String) (d : List (String × PyVal)) :
    lookupKey k (eraseKey k d) = none := by
  induction d with
  | nil => rfl
  | cons kv rest ih =>
      by_cases h : kv.1 = k
      · simpa [eraseKey, List.filter_cons, h] using ih
      · simpa [eraseKey, List.filter_cons, h, lookupKey] using ih

/-- C4: the recent-commit feed has at most 200 entries; the underlying sorted
list is ordered non-increasingly by the `sort_date` commit date; the feed is
exactly that list with the internal sort key deleted, truncated to 200; and no
returned record still contains the `sort_date` key. -/
theorem get_recent_commits_spec (logs : List RepoLog) :
    (get_recent_commits logs).length ≤ 200 ∧
    List.Sorted recentRel (sortedRecentCommits logs) ∧
    get_recent_commits logs =
      (((sortedRecentCommits logs).map (eraseKey ("sort_date"))).take 200) ∧
    List.Forall (fun c => lookupKey ("sort_date") c = none) (get_recent_commits logs) := by
  refine ⟨?_, ?_, rfl, ?_⟩
  · exact List.length_take_le 200 _
  · haveI : IsTotal (List (String × PyVal)) recentRel := ⟨fun a b => le_total _ _⟩
    haveI : IsTrans (List (String × PyVal)) recentRel :=
      ⟨fun _ _ _ h1 h2 => le_trans h2 h1⟩
    exact List.sorted_insertionSort recentRel _
  · rw [List.forall_iff_forall_mem]
    intro c hc
    have hc2 : c ∈ (sortedRecentCommits logs).map (eraseKey ("sort_date")) :=
      List.mem_of_mem_take hc
    obtain ⟨a, _, ha⟩ := List.mem_map.mp hc2
    rw [← ha]
    exact lookupKey_eraseKey _ a

/-- Concrete input for C5: two commits inside the window, the newer of which
(`aaa`) has no diffstat line in the `git log --shortstat` output (as merge
commits and empty commits do not). -/
def c5Logs : List RepoLog :=
  [⟨("repo1"), 0,
    ("COMMIT:aaa:2026-01-02:feat: y\nCOMMIT:bbb:2026-01-01:fix: x\n 1 file changed, 2 insertions(+), 1 deletion(-)")⟩]

/-- Commit-header criterion of the source's own line loop (lines 286-288): a
stripped line starting with `COMMIT:` that splits into at least four fields. -/
def isCommitHeader (lineChars : List Char) : Bool :=
  let line := pyStrip lineChars
  ("COMMIT:").data.isPrefixOf line && decide (4 ≤ (pySplitAtMost (':') 3 line).length)

/-- Number of commit-header lines across all repository logs. -/
def commitHeaderCount (logs : List RepoLog) : Nat :=
  (logs.map (fun rl => ((pySplitChar ('\n') rl.stdout.data).filter isCommitHeader).length)).sum

/-- C5 counterexample: the log of `c5Logs` contains two commits (well under
the 200 cap), but the feed holds only the single commit `bbb` that has a
diffstat line — commit `aaa` is dropped entirely instead of appearing with a
changed-line count of zero. -/
theorem get_recent_commits_drops_statless_commits :
    commitHeaderCount c5Logs = 2 ∧
    (get_recent_commits c5Logs).map (lookupKey ("hash")) = [some (PyVal.str ("bbb"))] := by
  decide

/-- The record emitted for commit `bbb` of `c5Logs`. -/
def c5Record : List (String × PyVal) :=
  [(("hash"), PyVal.str ("bbb")),
   (("message"), PyVal.str ("fix: x")),
   (("date"), PyVal.str ("Jan 01, 2026")),
   (("sort_date"), PyVal.str ("2026-01-01")),
   (("lines"), PyVal.num 3),
   (("type"), PyVal.str ("Bug")),
   (("repo"), PyVal.str ("repo1"))]

/-- C5 as amended: whenever at most 200 records are parsed, every parsed
record appears (sans sort key) in the feed; and every record the line loop
emits is emitted on a line containing `changed`, with a `lines` value equal to
the sum of the parsed insertion and deletion counts, each defaulting to zero
when its pattern is absent.  Commits with no diffstat line produce no record. -/
theorem recent_feed_complete_under_cap (logs : List RepoLog)
    (hcap : (rawRecentCommits logs).length ≤ 200) :
    (∀ r ∈ rawRecentCommits logs,
        eraseKey ("sort_date") r ∈ get_recent_commits logs) ∧
    (∀ (name : String) (st st' : PState) (line : String) (rec : List (String × PyVal)),
        processLine name st line = (st', some rec) →
        lookupKey ("lines") rec =
          some (PyVal.num ((searchNumBefore ((" insertion").data) (pyStrip line.data)).getD 0 +
                           (searchNumBefore ((" deletion").data) (pyStrip line.data)).getD 0)) ∧
        containsSub ("changed").data (pyStrip line.data) = true) := by
  constructor
  · intro r hr
    have hperm : List.Perm (sortedRecentCommits logs) (rawRecentCommits logs) :=
      List.perm_insertionSort recentRel _
    have hlen : ((sortedRecentCommits logs).map (eraseKey ("sort_date"))).length ≤ 200 := by
      rw [List.length_map, hperm.length_eq]
      exact hcap
    have htake : get_recent_commits logs =
        (sortedRecentCommits logs).map (eraseKey ("sort_date")) :=
      List.take_of_length_le hlen
    rw [htake]
    exact List.mem_map_of_mem _ (hperm.mem_iff.mpr hr)
  · intro name st st' line rec h
    unfold processLine at h
    by_cases h1 : ("COMMIT:").data.isPrefixOf (pyStrip line.data)
    · rw [if_pos h1] at h
      by_cases h2 : 4 ≤ (pySplitAtMost (':') 3 (pyStrip line.data)).length
      · rw [if_pos h2] at h
        have := congrArg Prod.snd h
        simp at this
      · rw [if_neg h2] at h
        have := congrArg Prod.snd h
        simp at this
    · rw [if_neg h1] at h
      by_cases h2 : (containsSub ("changed").data (pyStrip line.data) &&
          pyTruthyOpt st.currentHash) = true
      · rw [if_pos h2] at h
        have hsnd := congrArg Prod.snd h
        simp only [Option.some.injEq] at hsnd
        rw [← hsnd]
        refine ⟨by simp [lookupKey], ?_⟩
        have h2' : containsSub ("changed").data (pyStrip line.data) = true ∧
            pyTruthyOpt st.currentHash = true := by simpa using h2
        exact h2'.1
      · rw [if_neg (by simpa using h2)] at h
        have := congrArg Prod.snd h
        simp at this

/-- Witness for the amended C5 theorem on the concrete input `c5Logs`. -/
theorem recent_feed_complete_under_cap_witness :
    eraseKey ("sort_date") c5Record ∈ get_recent_commits c5Logs ∧
    lookupKey ("lines") c5Record = some (PyVal.num 3) := by
  have h := recent_feed_complete_under_cap c5Logs (by decide)
  refine ⟨h.1 c5Record (by decide), ?_⟩
  have h2 := (h.2 ("repo1")
    ⟨some ("bbb"), some ("fix: x"), some ("2026-01-01")⟩
    ⟨none, some ("fix: x"), some ("2026-01-01")⟩
    (" 1 file changed, 2 insertions(+), 1 deletion(-)") c5Record (by decide)).1
  exact h2.trans (by decide)

/-- JSON values as returned by `json.loads` on the analyzer's output. -/
inductive Json where
  | null
  | bool (b : Bool)
  | num (n : Int)
  | str (s : String)
  | arr (elems : List Json)
  | obj (fields : List (String × Json))

/-- Python `dict.get(k, default)` on a decoded JSON object. -/
def jsonGet (k : String) (dflt : Json) : List (String × Json) → Json
  | [] => dflt
  | kv :: rest => if kv.1 = k then kv.2 else jsonGet k dflt rest

/-- Chained `•.get(k, default)` on a value expected to be a JSON object. -/
def jsonGetIn (v : Json) (k : String) (dflt : Json) : Json :=
  match v with
  | Json.obj fs => jsonGet k dflt fs
  | _ => dflt

/-- Numeric reading of a JSON value (sort keys and `sum(...)` operate on the
numbers the analyzer emits). -/
def jsonNum : Json → Int
  | Json.num n => n
  | _ => 0

/-- Python `sum(d.values())` over the anti-pattern tally object. -/
def jsonSumValues : Json → Int
  | Json.obj fs => (fs.map (fun kv => jsonNum kv.2)).sum
  | _ => 0

/-- Recognised source-file extensions of the `rglob` calls in
`analyze_directory` (line 326). -/
def hasSrcExt (f : String) : Bool :=
  (".php").data.isSuffixOf f.data || (".module").data.isSuffixOf f.data ||
    (".inc").data.isSuffixOf f.data

/-- Outcome of the `subprocess.run` invocation of the PHP analyzer: a timeout
(raised as `TimeoutExpired`), any other exception, or a completed process with
exit code and captured streams. -/
inductive RunOutcome where
  | timeout
  | exn
  | completed (returncode : Int) (stdout : String) (stderr : String)

/-- Translation of `analyze_directory` (analyze.py lines 323-356), with the
work tree's file listing, the analyzer-process outcome and `json.loads`
supplied as oracles.  Every failure path — no recognised source files, a
timeout or other exception, a nonzero exit, empty output, undecodable JSON,
or a decoded value that is not an object (on which the unconditional
`list(data.keys())` raises, caught by the blanket `except`) — returns `None`. -/
def analyze_directory (files : List String) (outcome : RunOutcome)
    (jsonLoads : String → Option Json) : Option (List (String × Json)) :=
  let php_files := files.filter hasSrcExt
  if php_files.isEmpty then none
  else
    match outcome with
    | RunOutcome.timeout => none
    | RunOutcome.exn => none
    | RunOutcome.completed code out _ =>
        if ¬ (code = 0) then none
        else if (pyStrip out.data).isEmpty then none
        else
          match jsonLoads out with
          | some (Json.obj fs) => some fs
          | some _ => none
          | none => none

/-- C7: `analyze_directory` returns no data — independently of how the
analyzer would behave — whenever the tree has no file with a recognised source
extension, and a timeout, any other exception, a nonzero exit code, and
non-JSON output each likewise yield no data; no failure escapes as an error. -/
theorem analyze_directory_failures (files : List String) (outcome : RunOutcome)
    (jsonLoads : String → Option Json) :
    (files.filter hasSrcExt = [] → analyze_directory files outcome jsonLoads = none) ∧
    analyze_directory files RunOutcome.timeout jsonLoads = none ∧
    analyze_directory files RunOutcome.exn jsonLoads = none ∧
    (∀ (code : Int) (out err : String), ¬ code = 0 →
        analyze_directory files (RunOutcome.completed code out err) jsonLoads = none) ∧
    (∀ (out err : String), jsonLoads out = none →
        analyze_directory files (RunOutcome.completed 0 out err) jsonLoads = none) := by
  by_cases hempty : (files.filter hasSrcExt).isEmpty
  · refine ⟨fun _ => ?_, ?_, ?_, fun code out err _ => ?_, fun out err _ => ?_⟩ <;>
      · unfold analyze_directory
        rw [if_pos hempty]
  · have hne : ¬ files.filter hasSrcExt = [] := by
      intro hc
      rw [hc] at hempty
      exact hempty rfl
    refine ⟨fun hc => absurd hc hne, ?_, ?_, fun code out err hcode => ?_, fun out err hjson => ?_⟩
    · unfold analyze_directory
      rw [if_neg hempty]
    · unfold analyze_directory
      rw [if_neg hempty]
    · unfold analyze_directory
      rw [if_neg hempty]
      simp only [if_pos hcode]
    · unfold analyze_directory
      rw [if_neg hempty]
      simp [hjson]

/-- Witness for the C7 theorem on concrete inputs: a tree with no source
files, then a source tree hitting the timeout, the nonzero-exit and the
malformed-output paths. -/
theorem analyze_directory_failures_witness :
    analyze_directory ([("a.txt")]) (RunOutcome.completed 0 ("x") ("")) (fun _ => none) = none ∧
    analyze_directory ([("x.php")]) RunOutcome.timeout (fun _ => none) = none ∧
    analyze_directory ([("x.php")]) (RunOutcome.completed 1 ("ok") ("")) (fun _ => none) = none ∧
    analyze_directory ([("x.php")]) (RunOutcome.completed 0 ("bad") ("")) (fun _ => none) = none := by
  refine ⟨?_, ?_, ?_, ?_⟩
  · exact (analyze_directory_failures _ _ _).1 (by decide)
  · exact (analyze_directory_failures ([("x.php")]) RunOutcome.timeout _).2.1
  · exact (analyze_directory_failures ([("x.php")]) RunOutcome.exn _).2.2.2.1 1 ("ok") ("") (by decide)
  · exact (analyze_directory_failures ([("x.php")]) RunOutcome.exn _).2.2.2.2 ("bad") ("") rfl

/-- Oracles consumed by `analyze_version`: commit resolution and tree export
per repository, and the result of `analyze_directory` on the combined work
tree and on each repository's subtree.  Repositories are identified by their
mirror-directory names, exactly the names `analyze_version` works with. -/
structure AVWorld where
  getCommit : String → String → Option String
  exportOk : String → String → Bool
  analyzeDir : List String → Option (List (String × Json))
  analyzeRepo : String → Option (List (String × Json))
  workDirExists : String → Bool

/-- Repositories successfully exported for a checkpoint (analyze.py lines
372-381): those with a commit at or before the target date whose archive
extraction succeeded. -/
def exportedRepos (w : AVWorld) (repo_dirs : List String) (targetDate : String) : List String :=
  repo_dirs.filter (fun r =>
    match w.getCommit r targetDate with
    | some c => w.exportOk r c
    | none => false)

/-- Display-name cleanup of the per-repo statistics (lines 414-418). -/
def stripRepoPrefix (n : String) : String :=
  if ("YCloudYUSA_").data.isPrefixOf n.data then
    String.mk (n.data.drop (("YCloudYUSA_").data.length))
  else if ("open-y-subprojects_").data.isPrefixOf n.data then
    String.mk (n.data.drop (("open-y-subprojects_").data.length))
  else if ("drupal_").data.isPrefixOf n.data then
    String.mk (n.data.drop (("drupal_").data.length))
  else n

/-- One row of the per-repo breakdown collected for the current snapshot. -/
structure PerRepoEntry where
  name : String
  loc : Json
  ccn : Json
  mi : Json
  antipatterns : Int

/-- Ordering of the per-repo rows: stable descending by lines of code. -/
def perRepoRel (a b : PerRepoEntry) : Prop :=
  jsonNum b.loc ≤ jsonNum a.loc

instance : DecidableRel perRepoRel :=
  fun a b => inferInstanceAs (Decidable (jsonNum b.loc ≤ jsonNum a.loc))

/-- Translation of the per-repo statistics collection of `analyze_version`
(lines 406-429): analyze each exported repository's subtree, skip rows whose
analysis produced no (or falsy) data, and sort descending by code size. -/
def perRepoStats (w : AVWorld) (exported : List String) : List PerRepoEntry :=
  let entries := exported.foldl (fun acc rn =>
    if w.workDirExists rn then
      match w.analyzeRepo rn with
      | some fs =>
          if fs.isEmpty then acc
          else acc ++ [{ name := stripRepoPrefix rn,
                         loc := jsonGetIn (jsonGet ("production") (Json.obj []) fs)
                                  ("loc") (Json.num 0),
                         ccn := jsonGetIn (jsonGetIn (jsonGet ("production") (Json.obj []) fs)
                                  ("ccn") (Json.obj [])) ("avg") (Json.num 0),
                         mi := jsonGetIn (jsonGetIn (jsonGet ("production") (Json.obj []) fs)
                                  ("mi") (Json.obj [])) ("avg") (Json.num 0),
                         antipatterns := jsonSumValues (jsonGet ("antipatterns") (Json.obj []) fs) }]
      | none => acc
    else acc) []
  List.insertionSort perRepoRel entries

/-- One snapshot of the output document (the `result` dictionary built by
`analyze_version`, lines 394-403, optionally extended with `perRepo`). -/
structure Snapshot where
  date : String
  commit : String
  production : Json
  testLoc : Json
  surfaceArea : Json
  surfaceAreaLists : Json
  antipatterns : Json
  hotspots : Json
  perRepo : Option (List PerRepoEntry)

/-- Translation of `analyze_version` (analyze.py lines 359-431): export every
repository at the checkpoint's mid-month date, give up (`None`) when nothing
was exported or the combined analysis produced no (or falsy) data, and
otherwise assemble the snapshot, with the per-repo breakdown only on demand. -/
def analyze_version (w : AVWorld) (repo_dirs : List String) (year_month : String)
    (collectPerRepo : Bool) : Option Snapshot :=
  let exported := exportedRepos w repo_dirs (year_month ++ ("-15"))
  if exported.isEmpty then none
  else
    match w.analyzeDir exported with
    | none => none
    | some fs =>
        if fs.isEmpty then none
        else
          some { date := year_month,
                 commit := ("multi"),
                 production := jsonGet ("production") (Json.obj []) fs,
                 testLoc := jsonGet ("testLoc") (Json.num 0) fs,
                 surfaceArea := jsonGet ("surfaceArea") (Json.obj []) fs,
                 surfaceAreaLists := jsonGet ("surfaceAreaLists") (Json.obj []) fs,
                 antipatterns := jsonGet ("antipatterns") (Json.obj []) fs,
                 hotspots := jsonGet ("hotspots") (Json.arr []) fs,
                 perRepo := if collectPerRepo then some (perRepoStats w exported) else none }

/-- Four-character zero-padded year of `strftime("%Y")` (years of interest lie
below 10000; larger years render unpadded). -/
def yearChars (y : Nat) : List Char :=
  if y < 10000 then
    [digitChar (y / 1000), digitChar (y / 100 % 10), digitChar (y / 10 % 10), digitChar (y % 10)]
  else (toString y).data

/-- Two-character zero-padded month of `strftime("%m")`. -/
def pad2Chars (m : Nat) : List Char :=
  if m < 100 then [digitChar (m / 10), digitChar (m % 10)] else (toString m).data

/-- Translation of `target.strftime("%Y-%m")` as used for checkpoint labels. -/
def fmtYm (y m : Nat) : String :=
  String.mk (yearChars y ++ ('-') :: pad2Chars m)

/-- Translation of the snapshot collection loop of `main` (lines 520-526):
run `analyze_version` on every checkpoint and keep only truthy results. -/
def snapshotsLoop (w : AVWorld) (repos : List String) (dates : List (Nat × Nat)) :
    List Snapshot :=
  dates.foldl (fun acc t =>
    match analyze_version w repos (fmtYm t.1 t.2) false with
    | some r => acc ++ [r]
    | none => acc) []

theorem snapshotsLoop_eq_filterMap (w : AVWorld) (repos : List String)
    (dates : List (Nat × Nat)) :
    snapshotsLoop w repos dates =
      dates.filterMap (fun t => analyze_version w repos (fmtYm t.1 t.2) false) := by
  have hgen : ∀ (ds : List (Nat × Nat)) (acc : List Snapshot),
      ds.foldl (fun acc t =>
        match analyze_version w repos (fmtYm t.1 t.2) false with
        | some r => acc ++ [r]
        | none => acc) acc =
      acc ++ ds.filterMap (fun t => analyze_version w repos (fmtYm t.1 t.2) false) := by
    intro ds
    induction ds with
    | nil => intro acc; simp
    | cons t rest ih =>
        intro acc
        cases hav : analyze_version w repos (fmtYm t.1 t.2) false with
        | none => simp [List.foldl_cons, hav, ih, List.filterMap_cons]
        | some r => simp [List.foldl_cons, hav, ih, List.filterMap_cons]
  exact hgen dates []

/-- C6: when no repository exports successfully for a checkpoint,
`analyze_version` returns `None` (for either per-repo mode), and the snapshot
loop of `main` produces the same list with or without that checkpoint — the
checkpoint contributes no snapshot entry at all. -/
theorem analyze_version_no_exports (w : AVWorld) (repos : List String) (ym : String)
    (flag : Bool) (h : exportedRepos w repos (ym ++ ("-15")) = []) :
    analyze_version w repos ym flag = none ∧
    ∀ dates : List (Nat × Nat),
      snapshotsLoop w repos dates =
        snapshotsLoop w repos (dates.filter (fun t => ¬ (fmtYm t.1 t.2 = ym))) := by
  have hnone : ∀ fl : Bool, analyze_version w repos ym fl = none := by
    intro fl
    unfold analyze_version
    rw [h]
    rfl
  refine ⟨hnone flag, ?_⟩
  intro dates
  rw [snapshotsLoop_eq_filterMap, snapshotsLoop_eq_filterMap]
  induction dates with
  | nil => rfl
  | cons t rest ih =>
      by_cases ht : fmtYm t.1 t.2 = ym
      · rw [List.filterMap_cons, ht, hnone false, List.filter_cons,
          if_neg (by simp [ht]), ih]
      · rw [List.filterMap_cons, List.filter_cons, if_pos (by simpa using ht),
          List.filterMap_cons]
        cases hav : analyze_version w repos (fmtYm t.1 t.2) false <;> rw [ih]

/-- Oracle world for the C6 witness: every commit lookup fails. -/
def c6World : AVWorld :=
  { getCommit := fun _ _ => none,
    exportOk := fun _ _ => false,
    analyzeDir := fun _ => none,
    analyzeRepo := fun _ => none,
    workDirExists := fun _ => false }

/-- Witness for the C6 theorem on a concrete world, repo list and date list. -/
theorem analyze_version_no_exports_witness :
    analyze_version c6World ([("r1"), ("r2")]) ("2020-04") true = none ∧
    snapshotsLoop c6World ([("r1"), ("r2")]) ([((2020 : Nat), (4 : Nat)), (2020, 10)]) =
      snapshotsLoop c6World ([("r1"), ("r2")])
        (([((2020 : Nat), (4 : Nat)), (2020, 10)]).filter
          (fun t => ¬ (fmtYm t.1 t.2 = ("2020-04")))) := by
  have h := analyze_version_no_exports c6World ([("r1"), ("r2")]) ("2020-04") true rfl
  exact ⟨h.1, h.2 _⟩

/-- Oracles for the git interactions of the provisioning phase: directory
existence, and the exit codes and output of the fetch / symbolic-ref /
update-ref / clone commands, keyed by working directory resp. URL and target. -/
structure GitEnv where
  dirExists : String → Bool
  fetchCode : String → Int
  symbolicRef : String → Int × String
  updateRefCode : String → String → Int
  cloneCode : String → String → Int

/-- Translation of `get_repo_url`. -/
def get_repo_url (org repo : String) : String :=
  ("https://github.com/") ++ org ++ ("/") ++ repo ++ (".git")

/-- Translation of `get_drupal_org_repo_url`. -/
def get_drupal_org_repo_url (module : String) : String :=
  ("https://git.drupalcode.org/project/") ++ module ++ (".git")

/-- Translation of `setup_repo` (analyze.py lines 110-130): fetch an existing
mirror (failing the repo on a fetch error, repointing HEAD on success with the
update-ref result ignored), or clone a missing one (failing the repo on a
clone error). -/
def setup_repo (g : GitEnv) (reposDir org repo : String) : Option String :=
  let repoDir := reposDir ++ ("/") ++ org ++ ("_") ++ repo
  if g.dirExists repoDir then
    if ¬ (g.fetchCode repoDir = 0) then none
    else
      let sr := g.symbolicRef repoDir
      if sr.1 = 0 then
        let _ := g.updateRefCode (String.mk (pyStrip sr.2.data)) repoDir
        some repoDir
      else some repoDir
  else
    if ¬ (g.cloneCode (get_repo_url org repo) repoDir = 0) then none
    else some repoDir

/-- Translation of `setup_drupal_org_repo` (analyze.py lines 87-107), the
drupal.org twin of `setup_repo`. -/
def setup_drupal_org_repo (g : GitEnv) (reposDir module : String) : Option String :=
  let repoDir := reposDir ++ ("/drupal_") ++ module
  if g.dirExists repoDir then
    if ¬ (g.fetchCode repoDir = 0) then none
    else
      let sr := g.symbolicRef repoDir
      if sr.1 = 0 then
        let _ := g.updateRefCode (String.mk (pyStrip sr.2.data)) repoDir
        some repoDir
      else some repoDir
  else
    if ¬ (g.cloneCode (get_drupal_org_repo_url module) repoDir = 0) then none
    else some repoDir

/-- One entry of `github_repos_to_analyze` in `repos_config.json`. -/
structure RepoCfg where
  org : String
  repo : String
  ymca : Bool

/-- Parsed `repos_config.json`. -/
structure MainConfig where
  githubRepos : List RepoCfg
  drupalModules : List String

/-- Translation of the provisioning loops of `main` (lines 485-497): set up
every YMCA GitHub repo and every drupal.org module, collecting only the
successfully provisioned directories. -/
def provisionRepos (g : GitEnv) (reposDir : String) (ghRepos : List RepoCfg)
    (modules : List String) : List String :=
  (ghRepos.filterMap (fun rc => setup_repo g reposDir rc.org rc.repo)) ++
    (modules.filterMap (fun m => setup_drupal_org_repo g reposDir m))

/-- Translation of the provisioning phase of `main` (lines 470-501): a missing
config file aborts (`load_config` calls `sys.exit(1)`), an empty provisioned
list aborts with exit code 1, anything else proceeds with the list. -/
def provisionPhase (cfg : Option MainConfig) (g : GitEnv) (reposDir : String) :
    Except Nat (List String) :=
  match cfg with
  | none => Except.error 1
  | some c =>
      let dirs := provisionRepos g reposDir (c.githubRepos.filter (fun rc => rc.ymca))
        c.drupalModules
      if dirs.isEmpty then Except.error 1 else Except.ok dirs

/-- C9: a failed fetch or clone makes `setup_repo` / `setup_drupal_org_repo`
return no directory; a repo whose setup failed contributes nothing to the
provisioned list while the rest of the run proceeds; and the provisioning
phase aborts with a nonzero exit exactly when the config file is missing or
zero usable repos remain. -/
theorem provisioning_failure_handling (g : GitEnv) (reposDir org repo module : String) :
    (g.dirExists (reposDir ++ ("/") ++ org ++ ("_") ++ repo) = true →
      ¬ (g.fetchCode (reposDir ++ ("/") ++ org ++ ("_") ++ repo) = 0) →
      setup_repo g reposDir org repo = none) ∧
    (g.dirExists (reposDir ++ ("/") ++ org ++ ("_") ++ repo) = false →
      ¬ (g.cloneCode (get_repo_url org repo)
          (reposDir ++ ("/") ++ org ++ ("_") ++ repo) = 0) →
      setup_repo g reposDir org repo = none) ∧
    (g.dirExists (reposDir ++ ("/drupal_") ++ module) = true →
      ¬ (g.fetchCode (reposDir ++ ("/drupal_") ++ module) = 0) →
      setup_drupal_org_repo g reposDir module = none) ∧
    (g.dirExists (reposDir ++ ("/drupal_") ++ module) = false →
      ¬ (g.cloneCode (get_drupal_org_repo_url module)
          (reposDir ++ ("/drupal_") ++ module) = 0) →
      setup_drupal_org_repo g reposDir module = none) ∧
    (∀ (pre post : List RepoCfg) (rc : RepoCfg) (modules : List String),
      setup_repo g reposDir rc.org rc.repo = none →
      provisionRepos g reposDir (pre ++ rc :: post) modules =
        provisionRepos g reposDir (pre ++ post) modules) ∧
    provisionPhase none g reposDir = Except.error 1 ∧
    (∀ cfg : MainConfig,
      (provisionPhase (some cfg) g reposDir = Except.error 1 ↔
        provisionRepos g reposDir (cfg.githubRepos.filter (fun rc => rc.ymca))
          cfg.drupalModules = []) ∧
      (¬ provisionRepos g reposDir (cfg.githubRepos.filter (fun rc => rc.ymca))
          cfg.drupalModules = [] →
        provisionPhase (some cfg) g reposDir =
          Except.ok (provisionRepos g reposDir
            (cfg.githubRepos.filter (fun rc => rc.ymca)) cfg.drupalModules))) := by
  refine ⟨?_, ?_, ?_, ?_, ?_, rfl, ?_⟩
  · intro hex hfetch
    unfold setup_repo
    rw [if_pos hex, if_pos hfetch]
  · intro hex hclone
    unfold setup_repo
    rw [if_neg (by simp [hex]), if_pos hclone]
  · intro hex hfetch
    unfold setup_drupal_org_repo
    rw [if_pos hex, if_pos hfetch]
  · intro hex hclone
    unfold setup_drupal_org_repo
    rw [if_neg (by simp [hex]), if_pos hclone]
  · intro pre post rc modules hfail
    unfold provisionRepos
    rw [List.filterMap_append, List.filterMap_append, List.filterMap_cons, hfail]
  · intro cfg
    constructor
    · unfold provisionPhase
      by_cases hd : (provisionRepos g reposDir (cfg.githubRepos.filter (fun rc => rc.ymca))
          cfg.drupalModules).isEmpty
      · simp only [hd, if_true]
        exact ⟨fun _ => List.isEmpty_iff.mp hd, fun _ => trivial⟩
      · simp only [hd]
        constructor
        · intro hcontra
          exact absurd hcontra (by simp)
        · intro hnil
          exact absurd (List.isEmpty_iff.mpr hnil) hd
    · intro hne
      simp only [provisionPhase]
      rw [if_neg (fun hc => hne (List.isEmpty_iff.mp hc))]

/-- Git oracle for the C9 witness: fetches always fail, mirrors always exist. -/
def c9Git : GitEnv :=
  { dirExists := fun _ => true,
    fetchCode := fun _ => 1,
    symbolicRef := fun _ => (0, ("")),
    updateRefCode := fun _ _ => 0,
    cloneCode := fun _ _ => 1 }

/-- Witness for the C9 theorem on a concrete git oracle and config. -/
theorem provisioning_failure_handling_witness :
    setup_repo c9Git ("repos") ("org1") ("repo1") = none ∧
    setup_drupal_org_repo c9Git ("repos") ("mod1") = none ∧
    provisionRepos c9Git ("repos") ([]) ([("mod1")]) =
      provisionRepos c9Git ("repos") ([⟨("org1"), ("repo1"), true⟩]) ([("mod1")]) ∧
    provisionPhase (some ⟨[⟨("org1"), ("repo1"), true⟩], [("mod1")]⟩) c9Git ("repos") =
      Except.error 1 := by
  have h := provisioning_failure_handling c9Git ("repos") ("org1") ("repo1") ("mod1")
  refine ⟨h.1 rfl (by decide), h.2.2.1 rfl (by decide), ?_, ?_⟩
  · exact (h.2.2.2.2.1 ([]) ([]) ⟨("org1"), ("repo1"), true⟩ ([("mod1")])
      (h.1 rfl (by decide))).symm
  · exact (h.2.2.2.2.2.2 ⟨[⟨("org1"), ("repo1"), true⟩], [("mod1")]⟩).1.mpr (by decide)

/-- Numeric value of an ASCII digit character. -/
def digitVal (c : Char) : Nat :=
  c.toNat - 48

/-- Month index encoded in a snapshot's `YYYY-MM` date label (0 for labels of
any other shape). -/
def dateIdxOf (s : String) : Nat :=
  match s.data with
  | [a, b, c, d, dash, e, f] =>
      if dash = ('-') then
        12 * (1000 * digitVal a + 100 * digitVal b + 10 * digitVal c + digitVal d) +
          (10 * digitVal e + digitVal f)
      else 0
  | _ => 0

theorem digitVal_digitChar : ∀ d : Nat, d < 10 → digitVal (digitChar d) = d := by
  decide

theorem fmtYm_data (y m : Nat) (hy : y < 10000) (hm : m < 100) :
    (fmtYm y m).data =
      [digitChar (y / 1000), digitChar (y / 100 % 10), digitChar (y / 10 % 10),
       digitChar (y % 10), ('-'), digitChar (m / 10), digitChar (m % 10)] := by
  unfold fmtYm yearChars pad2Chars
  rw [if_pos hy, if_pos hm]
  rfl

theorem dateIdxOf_fmtYm (y m : Nat) (hy : y < 10000) (hm : m < 100) :
    dateIdxOf (fmtYm y m) = 12 * y + m := by
  unfold dateIdxOf
  rw [fmtYm_data y m hy hm]
  simp only [eq_self_iff_true, if_true]
  rw [digitVal_digitChar (y / 1000) (by omega), digitVal_digitChar (y / 100 % 10) (by omega),
    digitVal_digitChar (y / 10 % 10) (by omega), digitVal_digitChar (y % 10) (by omega),
    digitVal_digitChar (m / 10) (by omega), digitVal_digitChar (m % 10) (by omega)]
  omega

theorem pyDateLe_facts (y m ty tm td : Nat) (hm2 : m ≤ 12) (htm1 : 1 ≤ tm)
    (hg : pyDateLe (y, m, 1) (ty, tm, td) = true) :
    12 * y + m ≤ 12 * ty + tm ∧ (12 * y + m = 12 * ty + tm → y = ty ∧ m = tm) := by
  simp only [pyDateLe] at hg
  split_ifs at hg <;> omega

theorem analyze_version_date (w : AVWorld) (repos : List String) (ym : String)
    (flag : Bool) (r : Snapshot) (h : analyze_version w repos ym flag = some r) :
    r.date = ym := by
  unfold analyze_version at h
  by_cases he : (exportedRepos w repos (ym ++ ("-15"))).isEmpty
  · rw [if_pos he] at h
    exact absurd h (by simp)
  · rw [if_neg he] at h
    cases had : w.analyzeDir (exportedRepos w repos (ym ++ ("-15"))) with
    | none =>
        rw [had] at h
        exact absurd h (by simp)
    | some fs =>
        simp only [had] at h
        by_cases hfs : fs.isEmpty
        · rw [if_pos hfs] at h
          exact absurd h (by simp)
        · rw [if_neg hfs] at h
          rw [← Option.some.inj h]

theorem snapshotsLoop_dates (w : AVWorld) (repos : List String) (ds : List (Nat × Nat)) :
    (snapshotsLoop w repos ds).map (fun s => s.date) =
      (ds.filter
        (fun t => (analyze_version w repos (fmtYm t.1 t.2) false).isSome)).map
        (fun t => fmtYm t.1 t.2) := by
  rw [snapshotsLoop_eq_filterMap]
  induction ds with
  | nil => rfl
  | cons t rest ih =>
      rw [List.filterMap_cons, List.filter_cons]
      cases hav : analyze_version w repos (fmtYm t.1 t.2) false with
      | none => simpa [hav] using ih
      | some r =>
          have hdate := analyze_version_date w repos (fmtYm t.1 t.2) false r hav
          simp only [Option.isSome_some, if_true, List.map_cons, hdate]
          rw [ih]

theorem getLast?_of_pairwise_max {α : Type} (f : α → Nat) (N : Nat) (x : α) :
    ∀ l : List α, List.Pairwise (fun a b => f a < f b) l → x ∈ l → f x = N →
      (∀ y ∈ l, f y ≤ N) → l.getLast? = some x
  | [], _, hx, _, _ => absurd hx (List.not_mem_nil x)
  | [a], _, hx, _, _ => by
      rw [List.mem_singleton.mp hx]
      rfl
  | a :: b :: r2, hp, hx, hfx, hall => by
      rw [List.getLast?_cons_cons]
      rcases List.mem_cons.mp hx with hxa | hxrest
      · exfalso
        have hab : f a < f b := (List.pairwise_cons.mp hp).1 b (List.mem_cons_self b r2)
        have hbN : f b ≤ N := hall b (List.mem_cons_of_mem a (List.mem_cons_self b r2))
        have hfa : f a = N := by
          rw [← hxa]
          exact hfx
        omega
      · exact getLast?_of_pairwise_max f N x (b :: r2) (List.pairwise_cons.mp hp).2 hxrest hfx
          (fun y hy => hall y (List.mem_cons_of_mem a hy))

/-- Condition of the extra current-HEAD analysis in `main` (line 531):
`not snapshots or snapshots[-1]["date"] != current_date`. -/
def needCurrentSnapshot (snaps : List Snapshot) (currentDate : String) : Bool :=
  match snaps.getLast? with
  | none => true
  | some s => !(s.date == currentDate)

/-- Translation of the snapshot assembly of `main` (lines 506-535): collect
the semi-annual snapshots, then analyze the current month with the per-repo
breakdown unless the last collected snapshot already carries today's
year-month label, appending the result when it is truthy. -/
def mainSnapshots (w : AVWorld) (repos : List String) (today : Nat × Nat × Nat) :
    List Snapshot :=
  let snaps := snapshotsLoop w repos (snapshot_dates today)
  let currentDate := fmtYm today.1 today.2.1
  if needCurrentSnapshot snaps currentDate then
    match analyze_version w repos currentDate true with
    | some r => snaps ++ [r]
    | none => snaps
  else snaps

/-- C10: under a valid current date (year at most 9999), the snapshot list
assembled by `main` — semi-annual checkpoints processed in increasing order
plus the conditionally appended current-HEAD snapshot — carries strictly
increasing year-month date labels, and in particular no date label appears
twice. -/
theorem mainSnapshots_dates_strict (w : AVWorld) (repos : List String) (ty tm td : Nat)
    (htm1 : 1 ≤ tm) (htm2 : tm ≤ 12) (htd : 1 ≤ td) (hty : ty ≤ 9999) :
    List.Pairwise (fun a b => dateIdxOf a < dateIdxOf b)
      ((mainSnapshots w repos (ty, tm, td)).map (fun s => s.date)) ∧
    ((mainSnapshots w repos (ty, tm, td)).map (fun s => s.date)).Nodup := by
  suffices hfinal : List.Pairwise (fun a b => dateIdxOf a < dateIdxOf b)
      ((mainSnapshots w repos (ty, tm, td)).map (fun s => s.date)) by
    refine ⟨hfinal, List.Pairwise.imp ?_ hfinal⟩
    intro a b hab he
    rw [he] at hab
    exact lt_irrefl _ hab
  have hunfold : snapshot_dates (ty, tm, td) =
      snapshotLoop (ty, tm, td) (2 * ty + 6) ((2015 : Nat), (10 : Nat)) := rfl
  have hA : ∀ p ∈ snapshot_dates (ty, tm, td), 1 ≤ p.2 ∧ p.2 ≤ 12 := by
    intro p hp
    rw [hunfold] at hp
    exact List.forall_iff_forall_mem.mp
      (snapshotLoop_month_bounds (ty, tm, td) (2 * ty + 6) ((2015 : Nat), (10 : Nat))
        (by norm_num) (by norm_num)) p hp
  have hB : ∀ p ∈ snapshot_dates (ty, tm, td), pyDateLe (p.1, p.2, 1) (ty, tm, td) = true := by
    intro p hp
    rw [hunfold] at hp
    exact List.forall_iff_forall_mem.mp
      (snapshotLoop_guard (ty, tm, td) (2 * ty + 6) ((2015 : Nat), (10 : Nat))) p hp
  have hC : List.Pairwise (fun a b => monthIdx a < monthIdx b) (snapshot_dates (ty, tm, td)) := by
    rw [hunfold]
    exact snapshotLoop_pairwise (ty, tm, td) (2 * ty + 6) ((2015 : Nat), (10 : Nat))
  have hFacts : ∀ p ∈ (snapshot_dates (ty, tm, td)).filter
      (fun t => (analyze_version w repos (fmtYm t.1 t.2) false).isSome),
      dateIdxOf (fmtYm p.1 p.2) = monthIdx p ∧ monthIdx p ≤ 12 * ty + tm ∧
        (monthIdx p = 12 * ty + tm → fmtYm p.1 p.2 = fmtYm ty tm) := by
    intro p hp
    have hpL : p ∈ snapshot_dates (ty, tm, td) := (List.mem_filter.mp hp).1
    have hm := hA p hpL
    have hle := pyDateLe_facts p.1 p.2 ty tm td hm.2 htm1 (hB p hpL)
    have hylt : p.1 < 10000 := by omega
    refine ⟨dateIdxOf_fmtYm p.1 p.2 hylt (by omega), ?_, ?_⟩
    · exact hle.1
    · intro heq
      have hyeq := hle.2 heq
      rw [hyeq.1, hyeq.2]
  have hSpair : List.Pairwise (fun a b => dateIdxOf a < dateIdxOf b)
      (((snapshot_dates (ty, tm, td)).filter
        (fun t => (analyze_version w repos (fmtYm t.1 t.2) false).isSome)).map
        (fun t => fmtYm t.1 t.2)) := by
    rw [List.pairwise_map]
    refine List.Pairwise.imp_of_mem ?_ (List.Pairwise.filter _ hC)
    intro a b ha hb hab
    rw [(hFacts a ha).1, (hFacts b hb).1]
    exact hab
  have hSle : ∀ s ∈ ((snapshot_dates (ty, tm, td)).filter
      (fun t => (analyze_version w repos (fmtYm t.1 t.2) false).isSome)).map
      (fun t => fmtYm t.1 t.2),
      dateIdxOf s ≤ 12 * ty + tm ∧ (dateIdxOf s = 12 * ty + tm → s = fmtYm ty tm) := by
    intro s hs
    obtain ⟨p, hp, hps⟩ := List.mem_map.mp hs
    rw [← hps]
    refine ⟨?_, ?_⟩
    · rw [(hFacts p hp).1]
      exact (hFacts p hp).2.1
    · intro heq
      refine (hFacts p hp).2.2 ?_
      rw [← (hFacts p hp).1]
      exact heq
  have hloop := snapshotsLoop_dates w repos (snapshot_dates (ty, tm, td))
  by_cases hneed : needCurrentSnapshot
      (snapshotsLoop w repos (snapshot_dates (ty, tm, td))) (fmtYm ty tm) = true
  · cases hav : analyze_version w repos (fmtYm ty tm) true with
    | none =>
        have hmm : mainSnapshots w repos (ty, tm, td) =
            snapshotsLoop w repos (snapshot_dates (ty, tm, td)) := by
          simp only [mainSnapshots, hav, if_pos hneed]
        rw [hmm, hloop]
        exact hSpair
    | some r =>
        have hmm : mainSnapshots w repos (ty, tm, td) =
            snapshotsLoop w repos (snapshot_dates (ty, tm, td)) ++ [r] := by
          simp only [mainSnapshots, hav, if_pos hneed]
        have hrdate : r.date = fmtYm ty tm :=
          analyze_version_date w repos (fmtYm ty tm) true r hav
        rw [hmm, List.map_append, List.map_cons, List.map_nil, hloop, hrdate]
        rw [List.pairwise_append]
        refine ⟨hSpair, List.pairwise_singleton _ _, ?_⟩
        intro a ha b hb
        rw [List.mem_singleton.mp hb]
        have hcur : dateIdxOf (fmtYm ty tm) = 12 * ty + tm :=
          dateIdxOf_fmtYm ty tm (by omega) (by omega)
        rw [hcur]
        rcases Nat.lt_or_ge (dateIdxOf a) (12 * ty + tm) with hlt | hge
        · exact hlt
        · exfalso
          have haeq : dateIdxOf a = 12 * ty + tm := le_antisymm ((hSle a ha).1) hge
          have hacur : a = fmtYm ty tm := (hSle a ha).2 haeq
          have hlast := getLast?_of_pairwise_max dateIdxOf (12 * ty + tm) a _ hSpair ha haeq
            (fun y hy => (hSle y hy).1)
          rw [← hloop] at hlast
          rw [List.getLast?_map] at hlast
          obtain ⟨s0, hs0, hs0d⟩ := Option.map_eq_some'.mp hlast
          rw [hacur] at hs0d
          unfold needCurrentSnapshot at hneed
          rw [hs0] at hneed
          simp [hs0d] at hneed
  · have hmm : mainSnapshots w repos (ty, tm, td) =
        snapshotsLoop w repos (snapshot_dates (ty, tm, td)) := by
      simp only [mainSnapshots, if_neg hneed]
    rw [hmm, hloop]
    exact hSpair

/-- Witness for the C10 theorem at a concrete world and date. -/
theorem mainSnapshots_dates_strict_witness :
    List.Pairwise (fun a b => dateIdxOf a < dateIdxOf b)
      ((mainSnapshots c6World ([]) ((2026 : Nat), (10 : Nat), (12 : Nat))).map
        (fun s => s.date)) ∧
    ((mainSnapshots c6World ([]) ((2026 : Nat), (10 : Nat), (12 : Nat))).map
      (fun s => s.date)).Nodup :=
  mainSnapshots_dates_strict c6World ([]) 2026 10 12 (by decide) (by decide) (by decide)
    (by decide)

/-- Python dictionary update `d[k] = f(d.get(k, init))` on an insertion-ordered
association list: update the value in place when the key is present, append a
new binding otherwise. -/
def pyDictUpsert {β : Type} (k : String) (upd : β → β) (init : β) :
    List (String × β) → List (String × β)
  | [] => [(k, upd init)]
  | kv :: rest =>
      if kv.1 = k then (kv.1, upd kv.2) :: rest else kv :: pyDictUpsert k upd init rest

/-- Sum of an extracted field over the bindings whose key satisfies `P`. -/
def sumValsBy {β : Type} (P : String → Bool) (f : β → Nat) (l : List (String × β)) : Nat :=
  ((l.filter (fun kv => P kv.1)).map (fun kv => f kv.2)).sum

theorem sumValsBy_upsert {β : Type} (P : String → Bool) (f : β → Nat) (k : String)
    (upd : β → β) (init : β) (hupd : ∀ v, f (upd v) = f v + 1) (hinit : f init = 0) :
    ∀ l : List (String × β),
      sumValsBy P f (pyDictUpsert k upd init l) =
        sumValsBy P f l + (if P k = true then 1 else 0) := by
  intro l
  induction l with
  | nil =>
      unfold pyDictUpsert sumValsBy
      by_cases hp : P k = true <;> simp [hp, hupd, hinit]
  | cons kv rest ih =>
      unfold pyDictUpsert
      by_cases hk : kv.1 = k
      · unfold sumValsBy
        by_cases hp : P k = true <;>
          simp [List.filter_cons, hk, hp, hupd, sumValsBy] <;> omega
      · unfold sumValsBy at ih ⊢
        by_cases hp : P kv.1 = true <;> simp [List.filter_cons, hk, hp, ih] <;> omega

theorem pyDictUpsert_keys_sub {β : Type} (k : String) (upd : β → β) (init : β) :
    ∀ (l : List (String × β)) (k' : String),
      k' ∈ (pyDictUpsert k upd init l).map Prod.fst →
        k' ∈ l.map Prod.fst ∨ k' = k := by
  intro l
  induction l with
  | nil =>
      intro k' h
      simp [pyDictUpsert] at h
      exact Or.inr h
  | cons kv rest ih =>
      intro k' h
      unfold pyDictUpsert at h
      by_cases hk : kv.1 = k
      · rw [if_pos hk] at h
        simp only [List.map_cons, List.mem_cons] at h ⊢
        rcases h with h | h
        · exact Or.inl (Or.inl h)
        · exact Or.inl (Or.inr h)
      · rw [if_neg hk] at h
        simp only [List.map_cons, List.mem_cons] at h ⊢
        rcases h with h | h
        · exact Or.inl (Or.inl h)
        · rcases ih k' h with h2 | h2
          · exact Or.inl (Or.inr h2)
          · exact Or.inr h2

theorem pyDictUpsert_keys_nodup {β : Type} (k : String) (upd : β → β) (init : β) :
    ∀ l : List (String × β), (l.map Prod.fst).Nodup →
      ((pyDictUpsert k upd init l).map Prod.fst).Nodup := by
  intro l
  induction l with
  | nil =>
      intro _
      simp [pyDictUpsert]
  | cons kv rest ih =>
      intro hnd
      unfold pyDictUpsert
      simp only [List.map_cons, List.nodup_cons] at hnd
      by_cases hk : kv.1 = k
      · rw [if_pos hk]
        simp only [List.map_cons, List.nodup_cons]
        exact hnd
      · rw [if_neg hk]
        simp only [List.map_cons, List.nodup_cons]
        refine ⟨?_, ih hnd.2⟩
        intro hc
        rcases pyDictUpsert_keys_sub k upd init rest kv.1 hc with h2 | h2
        · exact hnd.1 h2
        · exact hk h2

/-- Tally fold shared by the per-year and per-month aggregations: process a
stream of items into a counting dictionary keyed by `key`. -/
def tallyFold {ι β : Type} (key : ι → String) (upd : ι → β → β) (init : β)
    (acc : List (String × β)) (items : List ι) : List (String × β) :=
  items.foldl (fun a it => pyDictUpsert (key it) (upd it) init a) acc

theorem sumValsBy_tallyFold {ι β : Type} (P : String → Bool) (f : β → Nat)
    (key : ι → String) (upd : ι → β → β) (init : β)
    (hupd : ∀ it v, f (upd it v) = f v + 1) (hinit : f init = 0) :
    ∀ (items : List ι) (acc : List (String × β)),
      sumValsBy P f (tallyFold key upd init acc items) =
        sumValsBy P f acc + (items.filter (fun it => P (key it))).length := by
  intro items
  induction items with
  | nil =>
      intro acc
      simp [tallyFold]
  | cons it rest ih =>
      intro acc
      unfold tallyFold at ih ⊢
      rw [List.foldl_cons, ih, sumValsBy_upsert P f (key it) (upd it) init (hupd it) hinit,
        List.filter_cons]
      by_cases hp : P (key it) = true <;> simp [hp] <;> omega

theorem tallyFold_keys_sub {ι β : Type} (key : ι → String) (upd : ι → β → β) (init : β) :
    ∀ (items : List ι) (acc : List (String × β)) (k : String),
      k ∈ (tallyFold key upd init acc items).map Prod.fst →
        k ∈ acc.map Prod.fst ∨ ∃ it ∈ items, k = key it := by
  intro items
  induction items with
  | nil =>
      intro acc k h
      exact Or.inl h
  | cons it rest ih =>
      intro acc k h
      unfold tallyFold at h
      rw [List.foldl_cons] at h
      rcases ih _ k h with h2 | h2
      · rcases pyDictUpsert_keys_sub (key it) (upd it) init acc k h2 with h3 | h3
        · exact Or.inl h3
        · exact Or.inr ⟨it, List.mem_cons_self it rest, h3⟩
      · obtain ⟨it', hit', hk'⟩ := h2
        exact Or.inr ⟨it', List.mem_cons_of_mem it hit', hk'⟩

theorem tallyFold_keys_nodup {ι β : Type} (key : ι → String) (upd : ι → β → β) (init : β) :
    ∀ (items : List ι) (acc : List (String × β)), (acc.map Prod.fst).Nodup →
      ((tallyFold key upd init acc items).map Prod.fst).Nodup := by
  intro items
  induction items with
  | nil =>
      intro acc h
      exact h
  | cons it rest ih =>
      intro acc h
      unfold tallyFold
      rw [List.foldl_cons]
      exact ih _ (pyDictUpsert_keys_nodup (key it) (upd it) init acc h)

/-- Python `'\n'.join`, the shape of multi-line `git log` output (one line per
commit, no trailing newline). -/
def intercalateChar (sep : Char) : List (List Char) → List Char
  | [] => []
  | [l] => l
  | l :: l2 :: rest => l ++ sep :: intercalateChar sep (l2 :: rest)

theorem pySplitChar_ne_nil (sep : Char) (cs : List Char) : ¬ pySplitChar sep cs = [] := by
  induction cs with
  | nil => simp [pySplitChar]
  | cons c rest ih =>
      unfold pySplitChar
      cases hsp : pySplitChar sep rest with
      | nil => exact absurd hsp ih
      | cons g gs => by_cases hc : c = sep <;> simp [hc]

theorem pySplitChar_of_not_mem (sep : Char) (cs : List Char) (h : sep ∉ cs) :
    pySplitChar sep cs = [cs] := by
  induction cs with
  | nil => rfl
  | cons c rest ih =>
      have hc : ¬ c = sep := fun hcc => h (hcc ▸ List.mem_cons_self c rest)
      conv_lhs => unfold pySplitChar
      rw [ih (fun hcm => h (List.mem_cons_of_mem c hcm))]
      simp [hc]

theorem pySplitChar_append (sep : Char) (l r : List Char) (hl : sep ∉ l) :
    pySplitChar sep (l ++ sep :: r) = l :: pySplitChar sep r := by
  induction l with
  | nil =>
      show pySplitChar sep (sep :: r) = [] :: pySplitChar sep r
      conv_lhs => unfold pySplitChar
      cases hsp : pySplitChar sep r with
      | nil => exact absurd hsp (pySplitChar_ne_nil sep r)
      | cons g gs => simp
  | cons c l' ih =>
      have hc : ¬ c = sep := by
        intro h
        exact hl (h ▸ List.mem_cons_self c l')
      show pySplitChar sep (c :: (l' ++ sep :: r)) = (c :: l') :: pySplitChar sep r
      conv_lhs => unfold pySplitChar
      rw [ih (fun h => hl (List.mem_cons_of_mem c h))]
      simp [hc]

theorem pySplitChar_intercalate (sep : Char) :
    ∀ ls : List (List Char), ls ≠ [] → (∀ l ∈ ls, sep ∉ l) →
      pySplitChar sep (intercalateChar sep ls) = ls := by
  intro ls
  induction ls with
  | nil => intro h; contradiction
  | cons l rest ih =>
      intro _ hsep
      cases rest with
      | nil => exact pySplitChar_of_not_mem sep l (hsep l (List.mem_cons_self l []))
      | cons l2 r2 =>
          show pySplitChar sep (l ++ sep :: intercalateChar sep (l2 :: r2)) = l :: l2 :: r2
          rw [pySplitChar_append sep l _ (hsep l (List.mem_cons_self l (l2 :: r2)))]
          rw [ih (by simp) (fun x hx => hsep x (List.mem_cons_of_mem l hx))]

theorem pyStrip_eq_self (cs : List Char)
    (h1 : ∀ c, cs.head? = some c → pyIsSpace c = false)
    (h2 : ∀ c, cs.getLast? = some c → pyIsSpace c = false) :
    pyStrip cs = cs := by
  unfold pyStrip
  have hd : cs.dropWhile pyIsSpace = cs := by
    cases cs with
    | nil => rfl
    | cons a l => rw [List.dropWhile_cons, if_neg (by simp [h1 a rfl])]
  rw [hd]
  have hr : cs.reverse.dropWhile pyIsSpace = cs.reverse := by
    cases hcr : cs.reverse with
    | nil => rfl
    | cons b r2 =>
        have hb : cs.getLast? = some b := by
          rw [← List.head?_reverse, hcr]
          rfl
        rw [List.dropWhile_cons, if_neg (by simp [h2 b hb])]
  rw [hr, List.reverse_reverse]

theorem intercalateChar_cons_head? (sep : Char) (a : List Char) (ls : List (List Char))
    (ha : ¬ a = []) : (intercalateChar sep (a :: ls)).head? = a.head? := by
  cases ls with
  | nil => rfl
  | cons b r2 =>
      show (a ++ sep :: intercalateChar sep (b :: r2)).head? = a.head?
      cases a with
      | nil => exact absurd rfl ha
      | cons x xs => rfl

theorem intercalateChar_ne_nil (sep : Char) (a : List Char) (ls : List (List Char))
    (ha : ¬ a = []) : ¬ intercalateChar sep (a :: ls) = [] := by
  intro hc
  have := intercalateChar_cons_head? sep a ls ha
  rw [hc] at this
  cases a with
  | nil => exact ha rfl
  | cons x xs => exact absurd this.symm (by simp)

theorem intercalateChar_getLast? (sep : Char) :
    ∀ (ls : List (List Char)) (l : List Char), (∀ x ∈ ls, ¬ x = []) →
      ls.getLast? = some l → (intercalateChar sep ls).getLast? = l.getLast? := by
  intro ls
  induction ls with
  | nil =>
      intro l _ h
      simp at h
  | cons a rest ih =>
      intro l hne h
      cases rest with
      | nil =>
          have : l = a := by
            simpa using h.symm
          rw [this]
          rfl
      | cons b r2 =>
          rw [List.getLast?_cons_cons] at h
          show (a ++ sep :: intercalateChar sep (b :: r2)).getLast? = l.getLast?
          rw [List.getLast?_append]
          have hbne : ¬ b = [] := hne b (List.mem_cons_of_mem a (List.mem_cons_self b r2))
          have hine : ¬ intercalateChar sep (b :: r2) = [] :=
            intercalateChar_ne_nil sep b r2 hbne
          have hlast : (sep :: intercalateChar sep (b :: r2)).getLast? =
              (intercalateChar sep (b :: r2)).getLast? := by
            cases hi : intercalateChar sep (b :: r2) with
            | nil => exact absurd hi hine
            | cons y ys => rw [List.getLast?_cons_cons]
          rw [hlast, ih l (fun x hx => hne x (List.mem_cons_of_mem a hx)) h]
          cases hl2 : l.getLast? with
          | none =>
              have : ¬ l = [] := by
                have hmem : l ∈ b :: r2 := List.mem_of_getLast?_eq_some h
                exact hne l (List.mem_cons_of_mem a hmem)
              cases l with
              | nil => exact absurd rfl this
              | cons z zs => simp at hl2
          | some z => rfl

/-- One commit as the git history oracle knows it: commit year and month (from
the committer date) and the subject line. -/
structure CommitM where
  y : Nat
  m : Nat
  subject : String

/-- Year label `strftime("%Y")` of a commit, as a string key. -/
def yearKeyStr (y : Nat) : String :=
  String.mk (yearChars y)

/-- Output of `git log --pretty=format:%ad --date=format:%Y` for one mirror:
one year label per commit, newline separated, no trailing newline. -/
def yearLogStdout (cs : List CommitM) : String :=
  String.mk (intercalateChar ('\n') (cs.map (fun c => yearChars c.y)))

/-- One line of `git log --pretty=format:%ad|%s --date=format:%Y-%m`. -/
def monthLineOf (c : CommitM) : List Char :=
  (fmtYm c.y c.m).data ++ ('|') :: c.subject.data

/-- Output of the month-format `git log` invocation for one mirror. -/
def monthLogStdout (cs : List CommitM) : String :=
  String.mk (intercalateChar ('\n') (cs.map monthLineOf))

/-- One element of the `get_commits_per_year` result list. -/
structure YearEntry where
  year : Nat
  commits : Nat

/-- Bucket counters of one month of `get_commits_per_month`. -/
structure MonthCounts where
  total : Nat
  features : Nat
  bugs : Nat
  maintenance : Nat
  unknown : Nat

/-- One element of the `get_commits_per_month` result list. -/
structure MonthEntry where
  date : String
  total : Nat
  features : Nat
  bugs : Nat
  maintenance : Nat
  unknown : Nat

/-- Translation of the per-line counter updates of `get_commits_per_month`
(lines 222-231): bump the total, then the bucket chosen by the classifier. -/
def classifyBump (subject : String) (mc : MonthCounts) : MonthCounts :=
  let mc2 := { mc with total := mc.total + 1 }
  if classify_commit subject = ("Bug") then { mc2 with bugs := mc2.bugs + 1 }
  else if classify_commit subject = ("Feature") then { mc2 with features := mc2.features + 1 }
  else if classify_commit subject = ("Maintenance") then
    { mc2 with maintenance := mc2.maintenance + 1 }
  else { mc2 with unknown := mc2.unknown + 1 }

/-- Zero-initialised month bucket (line 220). -/
def zeroCounts : MonthCounts :=
  ⟨0, 0, 0, 0, 0⟩

/-- Ascending order of the per-year result (`result.sort(key=lambda x:
x["year"])`, stable ascending). -/
def yearEntryLe (a b : YearEntry) : Prop :=
  a.year ≤ b.year

instance : DecidableRel yearEntryLe :=
  fun a b => inferInstanceAs (Decidable (a.year ≤ b.year))

/-- Ascending order of the per-month result (`result.sort(key=lambda x:
x["date"])`, stable ascending). -/
def monthEntryLe (a b : MonthEntry) : Prop :=
  a.date ≤ b.date

instance : DecidableRel monthEntryLe :=
  fun a b => inferInstanceAs (Decidable (a.date ≤ b.date))

/-- Counting dictionary built by `get_commits_per_year` (lines 146-159),
against the git oracle `yearLogStdout`: skip repos with a failing or empty
log, then count every nonempty stripped line. -/
def yearCountsRaw (repos : List (List CommitM)) : List (String × Nat) :=
  repos.foldl (fun acc cs =>
    if (pyStrip (yearLogStdout cs).data).isEmpty then acc
    else (pySplitChar ('\n') (pyStrip (yearLogStdout cs).data)).foldl
      (fun a line =>
        if (pyStrip line).isEmpty then a
        else pyDictUpsert (String.mk (pyStrip line)) (fun v => v + 1) 0 a) acc) []

/-- Translation of `get_commits_per_year` (lines 144-163). -/
def get_commits_per_year (repos : List (List CommitM)) : List YearEntry :=
  List.insertionSort yearEntryLe
    ((yearCountsRaw repos).map (fun kv => ⟨natOfDigits kv.1.data, kv.2⟩))

/-- Counting dictionary built by `get_commits_per_month` (lines 203-231),
against the git oracle `monthLogStdout`: skip repos with a failing or empty
log and lines without a `|`, key each line by its stripped date part, and
update the bucket counters from the subject part. -/
def monthCountsRaw (repos : List (List CommitM)) : List (String × MonthCounts) :=
  repos.foldl (fun acc cs =>
    if (pyStrip (monthLogStdout cs).data).isEmpty then acc
    else (pySplitChar ('\n') (pyStrip (monthLogStdout cs).data)).foldl
      (fun a line =>
        if containsSub [('|')] line then
          pyDictUpsert (String.mk (pyStrip ((pySplitAtMost ('|') 1 line).getD 0 [])))
            (classifyBump (String.mk ((pySplitAtMost ('|') 1 line).getD 1 [])))
            zeroCounts a
        else a) acc) []

/-- Translation of `get_commits_per_month` (lines 201-235). -/
def get_commits_per_month (repos : List (List CommitM)) : List MonthEntry :=
  List.insertionSort monthEntryLe
    ((monthCountsRaw repos).map (fun kv =>
      ⟨kv.1, kv.2.total, kv.2.features, kv.2.bugs, kv.2.maintenance, kv.2.unknown⟩))

/-- Year prefix of a `YYYY-MM` month key. -/
def yearPartOf (s : String) : String :=
  String.mk (s.data.take 4)

theorem stringMk_data (s : String) : String.mk s.data = s := rfl

theorem yearChars_eq (y : Nat) (hy : y < 10000) :
    yearChars y = [digitChar (y / 1000), digitChar (y / 100 % 10), digitChar (y / 10 % 10),
      digitChar (y % 10)] := by
  unfold yearChars
  rw [if_pos hy]

theorem pad2Chars_eq (m : Nat) (hm : m < 100) :
    pad2Chars m = [digitChar (m / 10), digitChar (m % 10)] := by
  unfold pad2Chars
  rw [if_pos hm]

theorem pyIsSpace_digitChar : ∀ d : Nat, d < 10 → pyIsSpace (digitChar d) = false := by
  decide

theorem newline_ne_digitChar : ∀ d : Nat, d < 10 → ¬ (('\n') = digitChar d) := by
  decide

theorem bar_ne_digitChar : ∀ d : Nat, d < 10 → ¬ (('|') = digitChar d) := by
  decide

theorem digitChar_inj : ∀ a : Nat, a < 10 → ∀ b : Nat, b < 10 →
    digitChar a = digitChar b → a = b := by
  decide

theorem toNatSub48_digitChar : ∀ d : Nat, d < 10 → (digitChar d).toNat - 48 = d := by
  decide

theorem newline_not_mem_yearChars (y : Nat) (hy : y < 10000) : ('\n') ∉ yearChars y := by
  rw [yearChars_eq y hy]
  intro hmem
  simp only [List.mem_cons, List.not_mem_nil, or_false] at hmem
  rcases hmem with h | h | h | h
  · exact newline_ne_digitChar (y / 1000) (by omega) h
  · exact newline_ne_digitChar (y / 100 % 10) (by omega) h
  · exact newline_ne_digitChar (y / 10 % 10) (by omega) h
  · exact newline_ne_digitChar (y % 10) (by omega) h

theorem yearChars_ne_nil (y : Nat) (hy : y < 10000) : ¬ yearChars y = [] := by
  rw [yearChars_eq y hy]
  simp

theorem yearChars_head? (y : Nat) (hy : y < 10000) :
    (yearChars y).head? = some (digitChar (y / 1000)) := by
  rw [yearChars_eq y hy]
  rfl

theorem yearChars_getLast? (y : Nat) (hy : y < 10000) :
    (yearChars y).getLast? = some (digitChar (y % 10)) := by
  rw [yearChars_eq y hy]
  rfl

theorem pyStrip_yearChars (y : Nat) (hy : y < 10000) : pyStrip (yearChars y) = yearChars y := by
  apply pyStrip_eq_self
  · intro c hc
    rw [yearChars_head? y hy] at hc
    rw [← Option.some.inj hc]
    exact pyIsSpace_digitChar (y / 1000) (by omega)
  · intro c hc
    rw [yearChars_getLast? y hy] at hc
    rw [← Option.some.inj hc]
    exact pyIsSpace_digitChar (y % 10) (by omega)

theorem classifyBump_total (s : String) (mc : MonthCounts) :
    (classifyBump s mc).total = mc.total + 1 := by
  unfold classifyBump
  split_ifs <;> rfl

theorem containsSub_of_mem (x : Char) : ∀ l : List Char, x ∈ l → containsSub [x] l = true := by
  intro l
  induction l with
  | nil => intro h; simp at h
  | cons c rest ih =>
      intro h
      unfold containsSub
      rcases List.mem_cons.mp h with h1 | h1
      · have : [x].isPrefixOf (c :: rest) = true := by
          rw [h1]
          simp [List.isPrefixOf]
        simp [this]
      · simp [ih h1]

theorem pySplitAtMost_zero (sep : Char) : ∀ cs : List Char, pySplitAtMost sep 0 cs = [cs] := by
  intro cs
  cases cs <;> rfl

theorem pySplitAtMost_one_append (sep : Char) (l r : List Char) (hl : sep ∉ l) :
    pySplitAtMost sep 1 (l ++ sep :: r) = [l, r] := by
  induction l with
  | nil =>
      show pySplitAtMost sep 1 (sep :: r) = [[], r]
      conv_lhs => unfold pySplitAtMost
      rw [pySplitAtMost_zero]
      simp
  | cons c l' ih =>
      have hc : ¬ c = sep := by
        intro h
        exact hl (h ▸ List.mem_cons_self c l')
      show pySplitAtMost sep 1 (c :: (l' ++ sep :: r)) = [c :: l', r]
      conv_lhs => unfold pySplitAtMost
      rw [ih (fun h => hl (List.mem_cons_of_mem c h))]
      simp [hc]

theorem fmtYm_data_split (y m : Nat) :
    (fmtYm y m).data = yearChars y ++ ('-') :: pad2Chars m := rfl

theorem newline_not_mem_fmtYm (y m : Nat) (hy : y < 10000) (hm : m < 100) :
    ('\n') ∉ (fmtYm y m).data := by
  rw [fmtYm_data_split, pad2Chars_eq m hm]
  intro hmem
  rcases List.mem_append.mp hmem with h | h
  · exact newline_not_mem_yearChars y hy h
  · simp only [List.mem_cons, List.not_mem_nil, or_false] at h
    rcases h with h | h | h
    · exact absurd h (by decide)
    · exact newline_ne_digitChar (m / 10) (by omega) h
    · exact newline_ne_digitChar (m % 10) (by omega) h

theorem bar_not_mem_fmtYm (y m : Nat) (hy : y < 10000) (hm : m < 100) :
    ('|') ∉ (fmtYm y m).data := by
  rw [fmtYm_data_split, pad2Chars_eq m hm, yearChars_eq y hy]
  intro hmem
  rcases List.mem_append.mp hmem with h | h
  · simp only [List.mem_cons, List.not_mem_nil, or_false] at h
    rcases h with h | h | h | h
    · exact bar_ne_digitChar (y / 1000) (by omega) h
    · exact bar_ne_digitChar (y / 100 % 10) (by omega) h
    · exact bar_ne_digitChar (y / 10 % 10) (by omega) h
    · exact bar_ne_digitChar (y % 10) (by omega) h
  · simp only [List.mem_cons, List.not_mem_nil, or_false] at h
    rcases h with h | h | h
    · exact absurd h (by decide)
    · exact bar_ne_digitChar (m / 10) (by omega) h
    · exact bar_ne_digitChar (m % 10) (by omega) h

theorem fmtYm_head? (y m : Nat) (hy : y < 10000) :
    (fmtYm y m).data.head? = some (digitChar (y / 1000)) := by
  rw [fmtYm_data_split, yearChars_eq y hy]
  rfl

theorem fmtYm_getLast? (y m : Nat) (hm : m < 100) :
    (fmtYm y m).data.getLast? = some (digitChar (m % 10)) := by
  rw [fmtYm_data_split, pad2Chars_eq m hm, List.getLast?_append]
  rfl

theorem pyStrip_fmtYm (y m : Nat) (hy : y < 10000) (hm : m < 100) :
    pyStrip (fmtYm y m).data = (fmtYm y m).data := by
  apply pyStrip_eq_self
  · intro c hc
    rw [fmtYm_head? y m hy] at hc
    rw [← Option.some.inj hc]
    exact pyIsSpace_digitChar (y / 1000) (by omega)
  · intro c hc
    rw [fmtYm_getLast? y m hm] at hc
    rw [← Option.some.inj hc]
    exact pyIsSpace_digitChar (m % 10) (by omega)

theorem monthLineOf_head? (c : CommitM) (hy : c.y < 10000) :
    (monthLineOf c).head? = some (digitChar (c.y / 1000)) := by
  unfold monthLineOf
  rw [fmtYm_data_split, yearChars_eq c.y hy]
  rfl

theorem monthLineOf_ne_nil (c : CommitM) (hy : c.y < 10000) : ¬ monthLineOf c = [] := by
  intro h
  have := monthLineOf_head? c hy
  rw [h] at this
  simp at this

theorem monthLineOf_getLast? (c : CommitM)
    (hs : ∀ ch, c.subject.data.getLast? = some ch → pyIsSpace ch = false) :
    ∀ ch, (monthLineOf c).getLast? = some ch → pyIsSpace ch = false := by
  intro ch h
  unfold monthLineOf at h
  rw [List.getLast?_append] at h
  cases hsub : c.subject.data with
  | nil =>
      rw [hsub] at h
      simp at h
      rw [← h]
      decide
  | cons z zs =>
      rw [hsub, List.getLast?_cons_cons] at h
      have hz : (z :: zs).getLast? = some ch := by
        cases hzz : (z :: zs).getLast? with
        | none => simp at hzz
        | some w =>
            rw [hzz] at h
            simpa using h
      rw [← hsub] at hz
      exact hs ch hz

theorem newline_not_mem_monthLineOf (c : CommitM) (hy : c.y < 10000) (hm : c.m < 100)
    (hsub : ('\n') ∉ c.subject.data) : ('\n') ∉ monthLineOf c := by
  unfold monthLineOf
  intro h
  rcases List.mem_append.mp h with h1 | h1
  · exact newline_not_mem_fmtYm c.y c.m hy hm h1
  · rcases List.mem_cons.mp h1 with h2 | h2
    · exact absurd h2 (by decide)
    · exact hsub h2

theorem yearStdout_lines (cs : List CommitM) (hne : ¬ cs = [])
    (hy : ∀ c ∈ cs, c.y < 10000) :
    pySplitChar ('\n') (pyStrip (yearLogStdout cs).data) =
      cs.map (fun c => yearChars c.y) := by
  have hstrip : pyStrip (yearLogStdout cs).data =
      intercalateChar ('\n') (cs.map (fun c => yearChars c.y)) := by
    apply pyStrip_eq_self
    · intro ch hc
      cases cs with
      | nil => exact absurd rfl hne
      | cons c0 cr =>
          rw [show (yearLogStdout (c0 :: cr)).data =
              intercalateChar ('\n') ((c0 :: cr).map (fun c => yearChars c.y)) from rfl,
            List.map_cons,
            intercalateChar_cons_head? ('\n') _ _
              (yearChars_ne_nil c0.y (hy c0 (List.mem_cons_self c0 cr))),
            yearChars_head? c0.y (hy c0 (List.mem_cons_self c0 cr))] at hc
          have hy0 : c0.y < 10000 := hy c0 (List.mem_cons_self c0 cr)
          rw [← Option.some.inj hc]
          exact pyIsSpace_digitChar (c0.y / 1000) (by omega)
    · intro ch hc
      cases hcl : cs.getLast? with
      | none => exact absurd (List.getLast?_eq_none_iff.mp hcl) hne
      | some cl =>
          have hclmem : cl ∈ cs := List.mem_of_getLast?_eq_some hcl
          have hlast : ((cs.map (fun c => yearChars c.y)).getLast?) =
              some (yearChars cl.y) := by
            rw [List.getLast?_map, hcl]
            rfl
          rw [show (yearLogStdout cs).data =
              intercalateChar ('\n') (cs.map (fun c => yearChars c.y)) from rfl,
            intercalateChar_getLast? ('\n') _ (yearChars cl.y) ?hn hlast,
            yearChars_getLast? cl.y (hy cl hclmem)] at hc
          · rw [← Option.some.inj hc]
            exact pyIsSpace_digitChar (cl.y % 10) (by omega)
          case hn =>
            intro x hx
            obtain ⟨c, hcm, hxc⟩ := List.mem_map.mp hx
            rw [← hxc]
            exact yearChars_ne_nil c.y (hy c hcm)
  rw [hstrip]
  apply pySplitChar_intercalate
  · simpa using hne
  · intro l hl
    obtain ⟨c, hcm, hlc⟩ := List.mem_map.mp hl
    rw [← hlc]
    exact newline_not_mem_yearChars c.y (hy c hcm)

theorem monthStdout_lines (cs : List CommitM) (hne : ¬ cs = [])
    (hy : ∀ c ∈ cs, c.y < 10000) (hm : ∀ c ∈ cs, c.m < 100)
    (hsn : ∀ c ∈ cs, ('\n') ∉ c.subject.data)
    (hst : ∀ c ∈ cs, ∀ ch, c.subject.data.getLast? = some ch → pyIsSpace ch = false) :
    pySplitChar ('\n') (pyStrip (monthLogStdout cs).data) = cs.map monthLineOf := by
  have hstrip : pyStrip (monthLogStdout cs).data =
      intercalateChar ('\n') (cs.map monthLineOf) := by
    apply pyStrip_eq_self
    · intro ch hc
      cases cs with
      | nil => exact absurd rfl hne
      | cons c0 cr =>
          rw [show (monthLogStdout (c0 :: cr)).data =
              intercalateChar ('\n') ((c0 :: cr).map monthLineOf) from rfl,
            List.map_cons,
            intercalateChar_cons_head? ('\n') _ _
              (monthLineOf_ne_nil c0 (hy c0 (List.mem_cons_self c0 cr))),
            monthLineOf_head? c0 (hy c0 (List.mem_cons_self c0 cr))] at hc
          have hy0 : c0.y < 10000 := hy c0 (List.mem_cons_self c0 cr)
          rw [← Option.some.inj hc]
          exact pyIsSpace_digitChar (c0.y / 1000) (by omega)
    · intro ch hc
      cases hcl : cs.getLast? with
      | none => exact absurd (List.getLast?_eq_none_iff.mp hcl) hne
      | some cl =>
          have hclmem : cl ∈ cs := List.mem_of_getLast?_eq_some hcl
          have hlast : ((cs.map monthLineOf).getLast?) = some (monthLineOf cl) := by
            rw [List.getLast?_map, hcl]
            rfl
          rw [show (monthLogStdout cs).data =
              intercalateChar ('\n') (cs.map monthLineOf) from rfl,
            intercalateChar_getLast? ('\n') _ (monthLineOf cl) ?hn hlast] at hc
          · exact monthLineOf_getLast? cl (hst cl hclmem) ch hc
          case hn =>
            intro x hx
            obtain ⟨c, hcm, hxc⟩ := List.mem_map.mp hx
            rw [← hxc]
            exact monthLineOf_ne_nil c (hy c hcm)
  rw [hstrip]
  apply pySplitChar_intercalate
  · simpa using hne
  · intro l hl
    obtain ⟨c, hcm, hlc⟩ := List.mem_map.mp hl
    rw [← hlc]
    exact newline_not_mem_monthLineOf c (hy c hcm) (hm c hcm) (hsn c hcm)

theorem natOfDigits_yearChars (y : Nat) (hy : y < 10000) : natOfDigits (yearChars y) = y := by
  rw [yearChars_eq y hy]
  unfold natOfDigits
  simp only [List.foldl_cons, List.foldl_nil]
  rw [toNatSub48_digitChar (y / 1000) (by omega), toNatSub48_digitChar (y / 100 % 10) (by omega),
    toNatSub48_digitChar (y / 10 % 10) (by omega), toNatSub48_digitChar (y % 10) (by omega)]
  omega

theorem natOfDigits_yearKeyStr (y : Nat) (hy : y < 10000) :
    natOfDigits (yearKeyStr y).data = y :=
  natOfDigits_yearChars y hy

theorem yearPartOf_fmtYm (y m : Nat) (hy : y < 10000) :
    yearPartOf (fmtYm y m) = yearKeyStr y := by
  unfold yearPartOf yearKeyStr
  congr 1
  rw [fmtYm_data_split]
  have h4 : (yearChars y).length = 4 := by
    rw [yearChars_eq y hy]
    rfl
  exact List.take_left' h4

theorem yearKeyStr_inj (y1 y2 : Nat) (h1 : y1 < 10000) (h2 : y2 < 10000)
    (h : yearKeyStr y1 = yearKeyStr y2) : y1 = y2 := by
  have hd : yearChars y1 = yearChars y2 := congrArg String.data h
  rw [yearChars_eq y1 h1, yearChars_eq y2 h2] at hd
  simp only [List.cons.injEq, and_true] at hd
  obtain ⟨e3, e2, e1, e0⟩ := hd
  have v3 := digitChar_inj (y1 / 1000) (by omega) (y2 / 1000) (by omega) e3
  have v2 := digitChar_inj (y1 / 100 % 10) (by omega) (y2 / 100 % 10) (by omega) e2
  have v1 := digitChar_inj (y1 / 10 % 10) (by omega) (y2 / 10 % 10) (by omega) e1
  have v0 := digitChar_inj (y1 % 10) (by omega) (y2 % 10) (by omega) e0
  omega

theorem foldl_congr_mem {α β : Type} (l : List α) (f g : β → α → β)
    (h : ∀ a ∈ l, ∀ b, f b a = g b a) : ∀ init, l.foldl f init = l.foldl g init := by
  induction l with
  | nil => intro _; rfl
  | cons a rest ih =>
      intro init
      rw [List.foldl_cons, List.foldl_cons, h a (List.mem_cons_self a rest)]
      exact ih (fun x hx b => h x (List.mem_cons_of_mem a hx) b) _

theorem yearCountsRaw_eq_tally (repos : List (List CommitM))
    (hy : ∀ cs ∈ repos, ∀ c ∈ cs, c.y < 10000) :
    yearCountsRaw repos =
      tallyFold (fun c => yearKeyStr c.y) (fun _ v => v + 1) 0 [] repos.flatten := by
  suffices h : ∀ (rs : List (List CommitM)), (∀ cs ∈ rs, ∀ c ∈ cs, c.y < 10000) →
      ∀ acc : List (String × Nat),
      rs.foldl (fun acc cs =>
        if (pyStrip (yearLogStdout cs).data).isEmpty then acc
        else (pySplitChar ('\n') (pyStrip (yearLogStdout cs).data)).foldl
          (fun a line =>
            if (pyStrip line).isEmpty then a
            else pyDictUpsert (String.mk (pyStrip line)) (fun v => v + 1) 0 a) acc) acc =
      tallyFold (fun c => yearKeyStr c.y) (fun _ v => v + 1) 0 acc rs.flatten by
    exact h repos hy []
  intro rs
  induction rs with
  | nil =>
      intro _ acc
      rfl
  | cons cs rest ih =>
      intro hrs acc
      have hcshy : ∀ c ∈ cs, c.y < 10000 := hrs cs (List.mem_cons_self cs rest)
      rw [List.foldl_cons, List.flatten_cons]
      have happ : tallyFold (fun c => yearKeyStr c.y) (fun _ v => v + 1) 0 acc
          (cs ++ rest.flatten) =
          tallyFold (fun c => yearKeyStr c.y) (fun _ v => v + 1) 0
            (tallyFold (fun c => yearKeyStr c.y) (fun _ v => v + 1) 0 acc cs)
            rest.flatten := by
        unfold tallyFold
        rw [List.foldl_append]
      rw [happ]
      rw [← ih (fun x hx => hrs x (List.mem_cons_of_mem cs hx))]
      congr 1
      cases hcs : cs with
      | nil => rfl
      | cons c0 cr =>
          rw [← hcs]
          have hcsne : ¬ cs = [] := by
            rw [hcs]
            simp
          have hlines := yearStdout_lines cs hcsne hcshy
          have hnempty : (pyStrip (yearLogStdout cs).data).isEmpty = false := by
            cases hsp : pyStrip (yearLogStdout cs).data with
            | nil =>
                rw [hsp] at hlines
                rw [hcs] at hlines
                simp only [pySplitChar, List.map_cons] at hlines
                have : ([] : List Char) = yearChars c0.y := by
                  exact (List.cons.injEq .. ▸ hlines).1
                exact absurd this.symm
                  (yearChars_ne_nil c0.y (hcshy c0 (hcs ▸ List.mem_cons_self c0 cr)))
            | cons z zs => rfl
          rw [if_neg (by simp [hnempty]), hlines, List.foldl_map]
          refine foldl_congr_mem cs _ _ ?_ acc
          intro c hcm b
          have hcy : c.y < 10000 := hcshy c hcm
          rw [pyStrip_yearChars c.y hcy]
          rw [if_neg (by simp [yearChars_eq c.y hcy])]
          rfl

theorem monthCountsRaw_eq_tally (repos : List (List CommitM))
    (hy : ∀ cs ∈ repos, ∀ c ∈ cs, c.y < 10000)
    (hm : ∀ cs ∈ repos, ∀ c ∈ cs, c.m < 100)
    (hsn : ∀ cs ∈ repos, ∀ c ∈ cs, ('\n') ∉ c.subject.data)
    (hst : ∀ cs ∈ repos, ∀ c ∈ cs, ∀ ch, c.subject.data.getLast? = some ch →
      pyIsSpace ch = false) :
    monthCountsRaw repos =
      tallyFold (fun c => fmtYm c.y c.m) (fun c => classifyBump c.subject) zeroCounts []
        repos.flatten := by
  suffices h : ∀ (rs : List (List CommitM)),
      (∀ cs ∈ rs, ∀ c ∈ cs, c.y < 10000) → (∀ cs ∈ rs, ∀ c ∈ cs, c.m < 100) →
      (∀ cs ∈ rs, ∀ c ∈ cs, ('\n') ∉ c.subject.data) →
      (∀ cs ∈ rs, ∀ c ∈ cs, ∀ ch, c.subject.data.getLast? = some ch → pyIsSpace ch = false) →
      ∀ acc : List (String × MonthCounts),
      rs.foldl (fun acc cs =>
        if (pyStrip (monthLogStdout cs).data).isEmpty then acc
        else (pySplitChar ('\n') (pyStrip (monthLogStdout cs).data)).foldl
          (fun a line =>
            if containsSub [('|')] line then
              pyDictUpsert (String.mk (pyStrip ((pySplitAtMost ('|') 1 line).getD 0 [])))
                (classifyBump (String.mk ((pySplitAtMost ('|') 1 line).getD 1 [])))
                zeroCounts a
            else a) acc) acc =
      tallyFold (fun c => fmtYm c.y c.m) (fun c => classifyBump c.subject) zeroCounts acc
        rs.flatten by
    exact h repos hy hm hsn hst []
  intro rs
  induction rs with
  | nil =>
      intro _ _ _ _ acc
      rfl
  | cons cs rest ih =>
      intro h1 h2 h3 h4 acc
      have hcshy : ∀ c ∈ cs, c.y < 10000 := h1 cs (List.mem_cons_self cs rest)
      have hcshm : ∀ c ∈ cs, c.m < 100 := h2 cs (List.mem_cons_self cs rest)
      have hcshn : ∀ c ∈ cs, ('\n') ∉ c.subject.data := h3 cs (List.mem_cons_self cs rest)
      have hcsht : ∀ c ∈ cs, ∀ ch, c.subject.data.getLast? = some ch → pyIsSpace ch = false :=
        h4 cs (List.mem_cons_self cs rest)
      rw [List.foldl_cons, List.flatten_cons]
      have happ : tallyFold (fun c => fmtYm c.y c.m) (fun c => classifyBump c.subject)
          zeroCounts acc (cs ++ rest.flatten) =
          tallyFold (fun c => fmtYm c.y c.m) (fun c => classifyBump c.subject) zeroCounts
            (tallyFold (fun c => fmtYm c.y c.m) (fun c => classifyBump c.subject)
              zeroCounts acc cs)
            rest.flatten := by
        unfold tallyFold
        rw [List.foldl_append]
      rw [happ]
      rw [← ih (fun x hx => h1 x (List.mem_cons_of_mem cs hx))
        (fun x hx => h2 x (List.mem_cons_of_mem cs hx))
        (fun x hx => h3 x (List.mem_cons_of_mem cs hx))
        (fun x hx => h4 x (List.mem_cons_of_mem cs hx))]
      congr 1
      cases hcs : cs with
      | nil => rfl
      | cons c0 cr =>
          rw [← hcs]
          have hcsne : ¬ cs = [] := by
            rw [hcs]
            simp
          have hlines := monthStdout_lines cs hcsne hcshy hcshm hcshn hcsht
          have hnempty : (pyStrip (monthLogStdout cs).data).isEmpty = false := by
            cases hsp : pyStrip (monthLogStdout cs).data with
            | nil =>
                rw [hsp] at hlines
                rw [hcs] at hlines
                simp only [pySplitChar, List.map_cons] at hlines
                have : ([] : List Char) = monthLineOf c0 := by
                  exact (List.cons.injEq .. ▸ hlines).1
                exact absurd this.symm
                  (monthLineOf_ne_nil c0 (hcshy c0 (hcs ▸ List.mem_cons_self c0 cr)))
            | cons z zs => rfl
          rw [if_neg (by simp [hnempty]), hlines, List.foldl_map]
          refine foldl_congr_mem cs _ _ ?_ acc
          intro c hcm b
          have hcy : c.y < 10000 := hcshy c hcm
          have hcm2 : c.m < 100 := hcshm c hcm
          have hbar : containsSub [('|')] (monthLineOf c) = true := by
            apply containsSub_of_mem
            unfold monthLineOf
            exact List.mem_append.mpr (Or.inr (List.mem_cons_self _ _))
          have hsplit : pySplitAtMost ('|') 1 (monthLineOf c) =
              [(fmtYm c.y c.m).data, c.subject.data] :=
            pySplitAtMost_one_append ('|') _ _ (bar_not_mem_fmtYm c.y c.m hcy hcm2)
          rw [if_pos hbar, hsplit]
          show pyDictUpsert (String.mk (pyStrip (fmtYm c.y c.m).data))
              (classifyBump (String.mk c.subject.data)) zeroCounts b =
            pyDictUpsert (fmtYm c.y c.m) (classifyBump c.subject) zeroCounts b
          rw [pyStrip_fmtYm c.y c.m hcy hcm2, stringMk_data, stringMk_data]


theorem flatten_bound {repos : List (List CommitM)}
    (hy : ∀ cs ∈ repos, ∀ c ∈ cs, c.y < 10000) :
    ∀ c ∈ repos.flatten, c.y < 10000 := by
  intro c hc
  obtain ⟨cs, hcs, hcc⟩ := List.mem_flatten.mp hc
  exact hy cs hcs c hcc

theorem sum_over_mapped {α β : Type} (mk : (String × β) → α) (p : α → Bool) (f : α → Nat)
    (P : String → Bool) (g : β → Nat)
    (hp : ∀ kv, p (mk kv) = P kv.1) (hf : ∀ kv, f (mk kv) = g kv.2) :
    ∀ l : List (String × β), (((l.map mk).filter p).map f).sum = sumValsBy P g l := by
  intro l
  induction l with
  | nil => rfl
  | cons kv rest ih =>
      unfold sumValsBy at ih ⊢
      rw [List.map_cons, List.filter_cons, List.filter_cons, hp]
      by_cases hP : P kv.1 = true
      · rw [if_pos hP, if_pos hP, List.map_cons, List.map_cons, List.sum_cons, List.sum_cons,
          hf, ih]
      · rw [if_neg (by simp [hP]), if_neg (by simp [hP]), ih]

set_option maxHeartbeats 1000000 in
/-- C8: for every consistent set of repository commit histories (years below
10000, months below 100, subjects free of newlines and trailing whitespace —
all true of real `git log` output), the per-month totals of a given year sum
to that year's per-year commit count, and both result lists are strictly
ascending (by year-month label and by year). -/
theorem commit_aggregates_consistent (repos : List (List CommitM)) (Y : Nat)
    (hY : Y < 10000)
    (hy : ∀ cs ∈ repos, ∀ c ∈ cs, c.y < 10000)
    (hm : ∀ cs ∈ repos, ∀ c ∈ cs, c.m < 100)
    (hsn : ∀ cs ∈ repos, ∀ c ∈ cs, ('\n') ∉ c.subject.data)
    (hst : ∀ cs ∈ repos, ∀ c ∈ cs, ∀ ch, c.subject.data.getLast? = some ch →
      pyIsSpace ch = false) :
    (((get_commits_per_month repos).filter
        (fun e => yearPartOf e.date = yearKeyStr Y)).map (fun e => e.total)).sum =
      (((get_commits_per_year repos).filter (fun e => e.year = Y)).map
        (fun e => e.commits)).sum ∧
    List.Pairwise (fun a b : MonthEntry => a.date < b.date) (get_commits_per_month repos) ∧
    List.Pairwise (fun a b : YearEntry => a.year < b.year) (get_commits_per_year repos) := by
  haveI instTotM : IsTotal MonthEntry monthEntryLe := ⟨fun a b => le_total a.date b.date⟩
  haveI instTransM : IsTrans MonthEntry monthEntryLe := ⟨fun _ _ _ h1 h2 => le_trans h1 h2⟩
  haveI instTotY : IsTotal YearEntry yearEntryLe := ⟨fun a b => le_total a.year b.year⟩
  haveI instTransY : IsTrans YearEntry yearEntryLe := ⟨fun _ _ _ h1 h2 => le_trans h1 h2⟩
  have hflat_y : ∀ c ∈ repos.flatten, c.y < 10000 := flatten_bound hy
  have hMtal := monthCountsRaw_eq_tally repos hy hm hsn hst
  have hYtal := yearCountsRaw_eq_tally repos hy
  have hpermM := List.perm_insertionSort monthEntryLe
    ((monthCountsRaw repos).map (fun kv =>
      (⟨kv.1, kv.2.total, kv.2.features, kv.2.bugs, kv.2.maintenance, kv.2.unknown⟩ :
        MonthEntry)))
  have hpermY := List.perm_insertionSort yearEntryLe
    ((yearCountsRaw repos).map (fun kv => (⟨natOfDigits kv.1.data, kv.2⟩ : YearEntry)))
  refine ⟨?_, ?_, ?_⟩
  · have hMsum : (((get_commits_per_month repos).filter
        (fun e => yearPartOf e.date = yearKeyStr Y)).map (fun e => e.total)).sum =
        sumValsBy (fun k => decide (yearPartOf k = yearKeyStr Y)) (fun mc => mc.total)
          (monthCountsRaw repos) := by
      unfold get_commits_per_month
      rw [((hpermM.filter _).map (fun e => e.total)).sum_eq]
      exact sum_over_mapped
        (fun kv : String × MonthCounts =>
          (⟨kv.1, kv.2.total, kv.2.features, kv.2.bugs, kv.2.maintenance, kv.2.unknown⟩ :
            MonthEntry))
        (fun e => decide (yearPartOf e.date = yearKeyStr Y))
        (fun e => e.total)
        (fun k => decide (yearPartOf k = yearKeyStr Y))
        (fun mc => mc.total)
        (fun kv => rfl) (fun kv => rfl) (monthCountsRaw repos)
    have hYsum : (((get_commits_per_year repos).filter (fun e => e.year = Y)).map
        (fun e => e.commits)).sum =
        sumValsBy (fun k => decide (natOfDigits k.data = Y)) (fun v => v)
          (yearCountsRaw repos) := by
      unfold get_commits_per_year
      rw [((hpermY.filter _).map (fun e => e.commits)).sum_eq]
      exact sum_over_mapped
        (fun kv : String × Nat => (⟨natOfDigits kv.1.data, kv.2⟩ : YearEntry))
        (fun e => decide (e.year = Y))
        (fun e => e.commits)
        (fun k => decide (natOfDigits k.data = Y))
        (fun v => v)
        (fun kv => rfl) (fun kv => rfl) (yearCountsRaw repos)
    rw [hMsum, hYsum, hMtal, hYtal]
    rw [sumValsBy_tallyFold (fun k => decide (yearPartOf k = yearKeyStr Y))
      (fun mc => mc.total) (fun c : CommitM => fmtYm c.y c.m)
      (fun c : CommitM => classifyBump c.subject) zeroCounts
      (fun it v => classifyBump_total it.subject v) rfl repos.flatten []]
    rw [sumValsBy_tallyFold (fun k => decide (natOfDigits k.data = Y))
      (fun v => v) (fun c : CommitM => yearKeyStr c.y)
      (fun _ v => v + 1) 0 (fun _ _ => rfl) rfl repos.flatten []]
    have hfm : List.filter
        (fun it => decide (yearPartOf (fmtYm it.y it.m) = yearKeyStr Y)) repos.flatten =
        List.filter (fun it => decide (it.y = Y)) repos.flatten := by
      apply List.filter_congr
      intro c hc
      rw [yearPartOf_fmtYm c.y c.m (hflat_y c hc)]
      rw [decide_eq_decide]
      constructor
      · intro h
        exact yearKeyStr_inj c.y Y (hflat_y c hc) hY h
      · intro h
        rw [h]
    have hfy : List.filter
        (fun it => decide (natOfDigits (yearKeyStr it.y).data = Y)) repos.flatten =
        List.filter (fun it => decide (it.y = Y)) repos.flatten := by
      apply List.filter_congr
      intro c hc
      rw [natOfDigits_yearKeyStr c.y (hflat_y c hc)]
    rw [hfm, hfy]
    rfl
  · have hkeysND : ((monthCountsRaw repos).map Prod.fst).Nodup := by
      rw [hMtal]
      exact tallyFold_keys_nodup _ _ _ _ [] (by simp)
    have hsorted : List.Pairwise monthEntryLe (get_commits_per_month repos) :=
      List.sorted_insertionSort monthEntryLe _
    have hdatesND : ((get_commits_per_month repos).map (fun e => e.date)).Nodup := by
      unfold get_commits_per_month
      rw [(hpermM.map (fun e => e.date)).nodup_iff, List.map_map]
      rw [List.map_congr_left (fun kv _ => (rfl :
        ((fun e : MonthEntry => e.date) ∘ (fun kv : String × MonthCounts =>
          (⟨kv.1, kv.2.total, kv.2.features, kv.2.bugs, kv.2.maintenance, kv.2.unknown⟩ :
            MonthEntry))) kv = kv.1))]
      exact hkeysND
    have hne : List.Pairwise (fun a b : MonthEntry => ¬ a.date = b.date)
        (get_commits_per_month repos) := List.pairwise_map.mp hdatesND
    exact (hsorted.and hne).imp (fun h => lt_of_le_of_ne h.1 h.2)
  · have hkeysND : ((yearCountsRaw repos).map Prod.fst).Nodup := by
      rw [hYtal]
      exact tallyFold_keys_nodup _ _ _ _ [] (by simp)
    have hkeysMem : ∀ k ∈ (yearCountsRaw repos).map Prod.fst,
        ∃ c ∈ repos.flatten, k = yearKeyStr c.y := by
      intro k hk
      rw [hYtal] at hk
      rcases tallyFold_keys_sub _ _ _ _ [] k hk with h | h
      · simp at h
      · exact h
    have hsorted : List.Pairwise yearEntryLe (get_commits_per_year repos) :=
      List.sorted_insertionSort yearEntryLe _
    have hinjKeys := List.inj_on_of_nodup_map hkeysND
    have h1 : ((yearCountsRaw repos).map (fun kv => natOfDigits kv.1.data)).Nodup := by
      refine List.Nodup.map_on ?_ (hkeysND.of_map Prod.fst)
      intro kv1 hkv1 kv2 hkv2 heq
      obtain ⟨c1, hc1, hk1e⟩ := hkeysMem kv1.1 (List.mem_map_of_mem Prod.fst hkv1)
      obtain ⟨c2, hc2, hk2e⟩ := hkeysMem kv2.1 (List.mem_map_of_mem Prod.fst hkv2)
      have hkeq : kv1.1 = kv2.1 := by
        rw [hk1e, hk2e]
        rw [hk1e, hk2e] at heq
        rw [natOfDigits_yearKeyStr c1.y (hflat_y c1 hc1),
          natOfDigits_yearKeyStr c2.y (hflat_y c2 hc2)] at heq
        rw [heq]
      exact hinjKeys hkv1 hkv2 hkeq
    have hyearsND2 : ((get_commits_per_year repos).map (fun e => e.year)).Nodup := by
      unfold get_commits_per_year
      rw [(hpermY.map (fun e => e.year)).nodup_iff, List.map_map]
      have h2 : (yearCountsRaw repos).map ((fun e : YearEntry => e.year) ∘
          (fun kv : String × Nat => (⟨natOfDigits kv.1.data, kv.2⟩ : YearEntry))) =
          (yearCountsRaw repos).map (fun kv => natOfDigits kv.1.data) :=
        List.map_congr_left (fun kv _ => rfl)
      rw [h2]
      exact h1
    have hne : List.Pairwise (fun a b : YearEntry => ¬ a.year = b.year)
        (get_commits_per_year repos) := List.pairwise_map.mp hyearsND2
    exact (hsorted.and hne).imp (fun h => lt_of_le_of_ne h.1 h.2)

/-- Witness for the C8 theorem on a concrete two-repo history. -/
theorem commit_aggregates_consistent_witness :
    (((get_commits_per_month ([[⟨2015, 10, ("feat: x")⟩], [⟨2015, 1, ("fix: y")⟩]])).filter
        (fun e => yearPartOf e.date = yearKeyStr 2015)).map (fun e => e.total)).sum =
      (((get_commits_per_year ([[⟨2015, 10, ("feat: x")⟩], [⟨2015, 1, ("fix: y")⟩]])).filter
        (fun e => e.year = 2015)).map (fun e => e.commits)).sum ∧
    List.Pairwise (fun a b : MonthEntry => a.date < b.date)
      (get_commits_per_month ([[⟨2015, 10, ("feat: x")⟩], [⟨2015, 1, ("fix: y")⟩]])) ∧
    List.Pairwise (fun a b : YearEntry => a.year < b.year)
      (get_commits_per_year ([[⟨2015, 10, ("feat: x")⟩], [⟨2015, 1, ("fix: y")⟩]])) :=
  commit_aggregates_consistent ([[⟨2015, 10, ("feat: x")⟩], [⟨2015, 1, ("fix: y")⟩]]) 2015
    (by decide) (by decide) (by decide) (by decide) (by decide)
